import Mathlib

/-!
# Verification of the clinical-trials dashboard frontend

Shallow embedding of the layout/filter persistence utilities, chart data
transforms and render logic of the `miracle-technical-assessment` repository
(React/TypeScript), together with theorems settling the specification claims.

Modelling conventions:
* `localStorage` and `JSON.stringify`/`JSON.parse` are modelled at the level of
  parsed values: a storage slot holds `none` when the key is absent, and
  otherwise the parsed object.  JavaScript objects are modelled as association
  lists in key-insertion order (all keys used by the app are non-numeric
  strings, so JS preserves insertion order).
* A JavaScript `Date` is modelled by its epoch-millisecond timestamp (a `Nat`;
  the app's dates come from date pickers, i.e. instants at or after 1970).
  The external runtime pair `Date.prototype.toISOString` / `new Date(string)`
  is modelled by a concrete Gregorian ISO-8601 serialiser and parser defined
  below, faithful to the `YYYY-MM-DDTHH:MM:SS.sssZ` format for timestamps
  before the year 10000 (`new Date` applied to a non-ISO string is modelled
  as `none`, standing for an invalid date).
* `Array.prototype.sort(cmp)` (a stable sort) is modelled by Mathlib's stable
  `List.insertionSort` with the ordering relation induced by the comparator.
-/

/-! ## Association lists: the model of JavaScript objects -/

/-- Model of JS property read `o[k]`: value of the first (unique) binding. -/
def lookupKey {α : Type} : List (String × α) → String → Option α
  | [], _ => none
  | (k, v) :: rest, key => if k = key then some v else lookupKey rest key

/-- Model of JS property write `o[k] = v`: replaces the binding in place if
present, otherwise appends it (JS insertion-order semantics). -/
def setKey {α : Type} : List (String × α) → String → α → List (String × α)
  | [], key, v => [(key, v)]
  | (k, w) :: rest, key, v =>
    if k = key then (key, v) :: rest else (k, w) :: setKey rest key v

/-- Model of JS `delete o[k]`: removes the (unique) binding for `k`. -/
def eraseKey {α : Type} : List (String × α) → String → List (String × α)
  | [], _ => []
  | (k, w) :: rest, key => if k = key then rest else (k, w) :: eraseKey rest key

/-- Keys of an object, in insertion order (JS `Object.keys`). -/
def keysOf {α : Type} (l : List (String × α)) : List String := l.map Prod.fst

theorem lookupKey_setKey_self {α : Type} (l : List (String × α)) (k : String) (v : α) :
    lookupKey (setKey l k v) k = some v := by
  induction l with
  | nil => simp [setKey, lookupKey]
  | cons hd tl ih =>
    obtain ⟨k', v'⟩ := hd
    by_cases h : k' = k <;> simp [setKey, lookupKey, h, ih]

theorem lookupKey_setKey_ne {α : Type} (l : List (String × α)) (k k' : String) (v : α)
    (h : k' ≠ k) : lookupKey (setKey l k v) k' = lookupKey l k' := by
  induction l with
  | nil => simp [setKey, lookupKey, Ne.symm h]
  | cons hd tl ih =>
    obtain ⟨k₀, v₀⟩ := hd
    by_cases h0 : k₀ = k
    · subst h0
      simp [setKey, lookupKey, Ne.symm h]
    · simp only [setKey, if_neg h0, lookupKey]
      by_cases h1 : k₀ = k' <;> simp [h1, ih]

theorem lookupKey_eraseKey_ne {α : Type} (l : List (String × α)) (k k' : String)
    (h : k' ≠ k) : lookupKey (eraseKey l k) k' = lookupKey l k' := by
  induction l with
  | nil => simp [eraseKey]
  | cons hd tl ih =>
    obtain ⟨k₀, v₀⟩ := hd
    by_cases h0 : k₀ = k
    · subst h0
      simp [eraseKey, lookupKey, Ne.symm h]
    · simp only [eraseKey, if_neg h0, lookupKey]
      by_cases h1 : k₀ = k' <;> simp [h1, ih]

theorem eraseKey_sublist {α : Type} (l : List (String × α)) (k : String) :
    (eraseKey l k).Sublist l := by
  induction l with
  | nil => simp [eraseKey]
  | cons hd tl ih =>
    obtain ⟨k₀, v₀⟩ := hd
    by_cases h0 : k₀ = k
    · simp only [eraseKey, if_pos h0]
      exact List.sublist_cons_self _ _
    · simpa [eraseKey, h0] using List.Sublist.cons₂ (k₀, v₀) ih

theorem lookupKey_eq_none_of_not_mem {α : Type} (l : List (String × α)) (k : String)
    (h : k ∉ keysOf l) : lookupKey l k = none := by
  induction l with
  | nil => simp [lookupKey]
  | cons hd tl ih =>
    obtain ⟨k₀, v₀⟩ := hd
    simp only [keysOf, List.map_cons, List.mem_cons, not_or] at h
    simp only [lookupKey, if_neg (Ne.symm h.1)]
    exact ih h.2

theorem lookupKey_eraseKey_self {α : Type} (l : List (String × α)) (k : String)
    (h : (keysOf l).Nodup) : lookupKey (eraseKey l k) k = none := by
  induction l with
  | nil => simp [eraseKey, lookupKey]
  | cons hd tl ih =>
    obtain ⟨k₀, v₀⟩ := hd
    simp only [keysOf, List.map_cons, List.nodup_cons] at h
    by_cases h0 : k₀ = k
    · subst h0
      simp only [eraseKey, if_pos rfl]
      exact lookupKey_eq_none_of_not_mem _ _ h.1
    · simp only [eraseKey, if_neg h0, lookupKey, if_neg h0]
      exact ih h.2

theorem setKey_of_not_mem {α : Type} (l : List (String × α)) (k : String) (v : α)
    (h : k ∉ keysOf l) : setKey l k v = l ++ [(k, v)] := by
  induction l with
  | nil => simp [setKey]
  | cons hd tl ih =>
    obtain ⟨k₀, v₀⟩ := hd
    simp only [keysOf, List.map_cons, List.mem_cons, not_or] at h
    simp only [setKey, if_neg (Ne.symm h.1), List.cons_append, List.cons.injEq, true_and]
    exact ih h.2

/-! ## ISO-8601 date codec

Model of the external runtime pair `Date.prototype.toISOString` (which renders
the timestamp as `YYYY-MM-DDTHH:MM:SS.sssZ`) and `new Date(isoString)` (which
recovers the timestamp).  Implemented concretely over the proleptic Gregorian
calendar for timestamps from 1970 up to the year 10000. -/

/-- Gregorian leap-year test. -/
def isLeap (y : Nat) : Bool := (y % 4 == 0 && y % 100 != 0) || y % 400 == 0

/-- Number of days in year `y`. -/
def daysInYear (y : Nat) : Nat := if isLeap y then 366 else 365

theorem daysInYear_ge (y : Nat) : 365 ≤ daysInYear y := by
  unfold daysInYear; split <;> omega

/-- Splits a day count into (year, day-of-year), walking years upward from `y`.
The fuel argument bounds the walk; `d + 1` steps always suffice since every
year has at least 365 days. -/
def yearDoyAux : Nat → Nat → Nat → Nat × Nat
  | 0, y, d => (y, d)
  | fuel + 1, y, d =>
    if d < daysInYear y then (y, d) else yearDoyAux fuel (y + 1) (d - daysInYear y)

/-- Year and zero-based day-of-year of the day `d` days after Jan 1 of year `y`. -/
def yearDoy (y d : Nat) : Nat × Nat := yearDoyAux (d + 1) y d

/-- Total number of days in the `n` consecutive years starting at year `y`. -/
def daysInRange (y : Nat) : Nat → Nat
  | 0 => 0
  | n + 1 => daysInYear y + daysInRange (y + 1) n

/-- Month lengths (January first) for a common or leap year. -/
def monthLens (leap : Bool) : List Nat :=
  [31, if leap then 29 else 28, 31, 30, 31, 30, 31, 31, 30, 31, 30, 31]

/-- Splits a zero-based day-of-year into (1-based month, 1-based day) given the
month-length table. -/
def monthDay : List Nat → Nat → Nat × Nat
  | [], d => (1, d + 1)
  | ml :: rest, d =>
    if d < ml then (1, d + 1)
    else
      let p := monthDay rest (d - ml)
      (p.1 + 1, p.2)

def msPerDay : Nat := 86400000

/-- Decimal digit character. -/
def digitChar (n : Nat) : Char := Char.ofNat (48 + n)

/-- Numeric value of a decimal digit character. -/
def digitVal (c : Char) : Nat := c.toNat - 48

def isDigitChar (c : Char) : Bool := 48 ≤ c.toNat && c.toNat ≤ 57

/-- Fixed-width zero-padded decimal rendering, most significant digit first. -/
def padChars : Nat → Nat → List Char
  | 0, _ => []
  | w + 1, n => digitChar (n / 10 ^ w) :: padChars w (n % 10 ^ w)

/-- Reads exactly `w` decimal digits, extending the accumulator. -/
def readDigits : Nat → Nat → List Char → Option (Nat × List Char)
  | 0, acc, cs => some (acc, cs)
  | _ + 1, _, [] => none
  | w + 1, acc, c :: cs =>
    if isDigitChar c then readDigits w (acc * 10 + digitVal c) cs else none

/-- Calendar components `(year, month, day)` of a day count since 1970-01-01. -/
def civilOfDays (days : Nat) : Nat × Nat × Nat :=
  let yd := yearDoy 1970 days
  let md := monthDay (monthLens (isLeap yd.1)) yd.2
  (yd.1, md.1, md.2)

/-- The character list `YYYY-MM-DDTHH:MM:SS.sssZ` for timestamp `t` (ms). -/
def isoChars (t : Nat) : List Char :=
  let days := t / msPerDay
  let rem := t % msPerDay
  let c := civilOfDays days
  padChars 4 c.1 ++ '-' :: padChars 2 c.2.1 ++ '-' :: padChars 2 c.2.2 ++
    'T' :: padChars 2 (rem / 3600000) ++ ':' :: padChars 2 (rem / 60000 % 60) ++
    ':' :: padChars 2 (rem / 1000 % 60) ++ '.' :: padChars 3 (rem % 1000) ++ ['Z']

/-- Model of `Date.prototype.toISOString`. -/
def toISOString (t : Nat) : String := String.mk (isoChars t)

/-- Expects character `c` at the head of the stream. -/
def expectChar (c : Char) : List Char → Option (List Char)
  | [] => none
  | x :: xs => if x = c then some xs else none

/-- Sum of the first `k` month lengths. -/
def sumTake (ls : List Nat) (k : Nat) : Nat := (ls.take k).sum

/-- Parses the time-of-day tail `HH:MM:SS.sssZ` into milliseconds of day. -/
def parseTimeChars (cs : List Char) : Option Nat :=
  (readDigits 2 0 cs).bind fun ph =>
  (expectChar ':' ph.2).bind fun c4 =>
  (readDigits 2 0 c4).bind fun pmi =>
  (expectChar ':' pmi.2).bind fun c5 =>
  (readDigits 2 0 c5).bind fun ps =>
  (expectChar '.' ps.2).bind fun c6 =>
  (readDigits 3 0 c6).bind fun pms =>
  (expectChar 'Z' pms.2).bind fun c7 =>
  if c7 = [] then some (ph.1 * 3600000 + pmi.1 * 60000 + ps.1 * 1000 + pms.1) else none

/-- Parses `YYYY-MM-DDTHH:MM:SS.sssZ` back into an epoch-millisecond
timestamp; `none` on any shape mismatch (modelling an invalid `Date`). -/
def parseIsoChars (cs : List Char) : Option Nat :=
  (readDigits 4 0 cs).bind fun py =>
  (expectChar '-' py.2).bind fun c1 =>
  (readDigits 2 0 c1).bind fun pmo =>
  (expectChar '-' pmo.2).bind fun c2 =>
  (readDigits 2 0 c2).bind fun pdd =>
  (expectChar 'T' pdd.2).bind fun c3 =>
  (parseTimeChars c3).bind fun tod =>
  some ((daysInRange 1970 (py.1 - 1970) + sumTake (monthLens (isLeap py.1)) (pmo.1 - 1)
      + (pdd.1 - 1)) * msPerDay + tod)

/-- Model of `new Date(s)` for the strings the app stores: the recovered
timestamp, or `none` for an invalid date. -/
def newDateMs (s : String) : Option Nat := parseIsoChars s.data

/-- Upper end of the timestamp range covered by the codec model: midnight of
Jan 1 of year 10000. -/
def isoMax : Nat := daysInRange 1970 8030 * msPerDay

/-! ### Codec correctness -/

theorem digit_facts : ∀ d < 10, digitVal (digitChar d) = d ∧
    isDigitChar (digitChar d) = true ∧ digitChar d ≠ 'T' := by decide

theorem isDigitChar_ne_T {c : Char} (h : isDigitChar c = true) : c ≠ 'T' := by
  intro hc; subst hc; exact absurd h (by decide)

theorem readDigits_pad (w : Nat) : ∀ acc n cs, n < 10 ^ w →
    readDigits w acc (padChars w n ++ cs) = some (acc * 10 ^ w + n, cs) := by
  induction w with
  | zero =>
    intro acc n cs h
    have : n = 0 := by simpa using h
    subst this
    simp [padChars, readDigits]
  | succ w ih =>
    intro acc n cs h
    have hpow : (10 : Nat) ^ (w + 1) = 10 ^ w * 10 := by rw [pow_succ]
    have hd : n / 10 ^ w < 10 := Nat.div_lt_of_lt_mul (by omega)
    have hm : n % 10 ^ w < 10 ^ w := Nat.mod_lt _ (Nat.pos_pow_of_pos w (by omega))
    have hfacts := digit_facts _ hd
    simp only [padChars, List.cons_append, readDigits, hfacts.2.1, if_true,
      hfacts.1, List.append_eq]
    rw [ih (acc * 10 + n / 10 ^ w) (n % 10 ^ w) cs hm]
    have hsplit : n = 10 ^ w * (n / 10 ^ w) + n % 10 ^ w := (Nat.div_add_mod n (10 ^ w)).symm
    congr 2
    conv_rhs => rw [hsplit]
    rw [hpow]
    ring

theorem padChars_digits (w : Nat) : ∀ n, n < 10 ^ w →
    ∀ c ∈ padChars w n, isDigitChar c = true := by
  induction w with
  | zero => intro n _ c hc; simp [padChars] at hc
  | succ w ih =>
    intro n h c hc
    have hpow : (10 : Nat) ^ (w + 1) = 10 ^ w * 10 := by rw [pow_succ]
    have hd : n / 10 ^ w < 10 := Nat.div_lt_of_lt_mul (by omega)
    have hm : n % 10 ^ w < 10 ^ w := Nat.mod_lt _ (Nat.pos_pow_of_pos w (by omega))
    simp only [padChars, List.mem_cons] at hc
    rcases hc with rfl | hc
    · exact (digit_facts _ hd).2.1
    · exact ih _ hm c hc

theorem expectChar_cons (c : Char) (cs : List Char) : expectChar c (c :: cs) = some cs := by
  simp [expectChar]

theorem daysInRange_succ (y n : Nat) :
    daysInRange y (n + 1) = daysInYear y + daysInRange (y + 1) n := rfl

theorem daysInRange_add (y a b : Nat) :
    daysInRange y (a + b) = daysInRange y a + daysInRange (y + a) b := by
  induction a generalizing y with
  | zero => simp [daysInRange]
  | succ a ih =>
    have h1 : a + 1 + b = (a + b) + 1 := by omega
    have h2 : y + (a + 1) = (y + 1) + a := by omega
    rw [h1, daysInRange_succ, daysInRange_succ, ih (y + 1), h2]
    omega

theorem yearDoyAux_spec : ∀ fuel y d, d < fuel →
    y ≤ (yearDoyAux fuel y d).1 ∧
    (yearDoyAux fuel y d).2 < daysInYear (yearDoyAux fuel y d).1 ∧
    daysInRange y ((yearDoyAux fuel y d).1 - y) + (yearDoyAux fuel y d).2 = d := by
  intro fuel
  induction fuel with
  | zero => intro y d hd; omega
  | succ fuel ih =>
    intro y d hd
    by_cases h : d < daysInYear y
    · simp [yearDoyAux, h, daysInRange]
    · have h365 := daysInYear_ge y
      have hlt : d - daysInYear y < fuel := by omega
      have hspec := ih (y + 1) (d - daysInYear y) hlt
      simp only [yearDoyAux, if_neg h]
      refine ⟨by omega, hspec.2.1, ?_⟩
      have hy : y ≤ (yearDoyAux fuel (y + 1) (d - daysInYear y)).1 := by omega
      have hk : (yearDoyAux fuel (y + 1) (d - daysInYear y)).1 - y =
          ((yearDoyAux fuel (y + 1) (d - daysInYear y)).1 - (y + 1)) + 1 := by omega
      rw [hk, Nat.add_comm _ 1, daysInRange_add, ]
      simp only [daysInRange_succ, daysInRange]
      omega

theorem yearDoy_spec (d : Nat) :
    1970 ≤ (yearDoy 1970 d).1 ∧
    (yearDoy 1970 d).2 < daysInYear (yearDoy 1970 d).1 ∧
    daysInRange 1970 ((yearDoy 1970 d).1 - 1970) + (yearDoy 1970 d).2 = d :=
  yearDoyAux_spec (d + 1) 1970 d (by omega)

theorem year_lt_of_days_lt {d : Nat} (hd : d < daysInRange 1970 8030) :
    (yearDoy 1970 d).1 < 10000 := by
  have hspec := yearDoy_spec d
  by_contra hge
  push_neg at hge
  have hk : (yearDoy 1970 d).1 - 1970 = 8030 + ((yearDoy 1970 d).1 - 1970 - 8030) := by omega
  rw [hk, daysInRange_add 1970 8030 _] at hspec
  omega

set_option maxRecDepth 4000 in
theorem monthLens_sum (leap : Bool) : (monthLens leap).sum = if leap then 366 else 365 := by
  cases leap <;> decide

set_option maxRecDepth 8000 in
theorem monthDay_spec_concrete (leap : Bool) : ∀ doy < 366, doy < (monthLens leap).sum →
    1 ≤ (monthDay (monthLens leap) doy).1 ∧ (monthDay (monthLens leap) doy).1 ≤ 12 ∧
    1 ≤ (monthDay (monthLens leap) doy).2 ∧ (monthDay (monthLens leap) doy).2 ≤ 31 ∧
    sumTake (monthLens leap) ((monthDay (monthLens leap) doy).1 - 1) +
      ((monthDay (monthLens leap) doy).2 - 1) = doy := by
  cases leap <;> decide

theorem sum_monthLens_eq (y : Nat) : (monthLens (isLeap y)).sum = daysInYear y := by
  rw [monthLens_sum]; unfold daysInYear; cases isLeap y <;> simp

theorem daysInYear_le (y : Nat) : daysInYear y ≤ 366 := by
  unfold daysInYear; split <;> omega

set_option maxHeartbeats 1000000 in
theorem parseTime_pad (h mi s ms : Nat) (hh : h < 10 ^ 2) (hmi : mi < 10 ^ 2)
    (hs : s < 10 ^ 2) (hms : ms < 10 ^ 3) :
    parseTimeChars (padChars 2 h ++ ':' :: (padChars 2 mi ++ ':' :: (padChars 2 s ++
      '.' :: (padChars 3 ms ++ ['Z'])))) =
    some (h * 3600000 + mi * 60000 + s * 1000 + ms) := by
  unfold parseTimeChars
  simp only [readDigits_pad 2 0 _ _ hh, Option.some_bind, expectChar_cons,
    Nat.zero_mul, Nat.zero_add, List.cons_append, List.append_assoc]
  simp only [readDigits_pad 2 0 _ _ hmi, Option.some_bind, expectChar_cons,
    Nat.zero_mul, Nat.zero_add, List.cons_append, List.append_assoc]
  simp only [readDigits_pad 2 0 _ _ hs, Option.some_bind, expectChar_cons,
    Nat.zero_mul, Nat.zero_add, List.cons_append, List.append_assoc]
  simp only [readDigits_pad 3 0 _ _ hms, Option.some_bind, expectChar_cons,
    Nat.zero_mul, Nat.zero_add, List.cons_append, List.append_assoc]
  simp only [if_true]

set_option maxHeartbeats 1000000 in
theorem parseIso_toISO (t : Nat) (ht : t < isoMax) :
    parseIsoChars (isoChars t) = some t := by
  have hdays : t / msPerDay < daysInRange 1970 8030 := by
    apply Nat.div_lt_of_lt_mul
    calc t < isoMax := ht
      _ = msPerDay * daysInRange 1970 8030 := by rw [isoMax, Nat.mul_comm]
  have hrem : t % msPerDay < 86400000 := by
    have h0 : 0 < msPerDay := by simp [msPerDay]
    have := Nat.mod_lt t h0
    simpa [msPerDay] using this
  have hyd := yearDoy_spec (t / msPerDay)
  have hy4 : (yearDoy 1970 (t / msPerDay)).1 < 10000 := year_lt_of_days_lt hdays
  have hdoy366 : (yearDoy 1970 (t / msPerDay)).2 < 366 :=
    lt_of_lt_of_le hyd.2.1 (daysInYear_le _)
  have hdoysum : (yearDoy 1970 (t / msPerDay)).2 <
      (monthLens (isLeap (yearDoy 1970 (t / msPerDay)).1)).sum := by
    rw [sum_monthLens_eq]; exact hyd.2.1
  have hmd := monthDay_spec_concrete (isLeap (yearDoy 1970 (t / msPerDay)).1)
    (yearDoy 1970 (t / msPerDay)).2 hdoy366 hdoysum
  have hiso : isoChars t =
      padChars 4 (yearDoy 1970 (t / msPerDay)).1 ++
      '-' :: padChars 2 (monthDay (monthLens (isLeap (yearDoy 1970 (t / msPerDay)).1))
          (yearDoy 1970 (t / msPerDay)).2).1 ++
      '-' :: padChars 2 (monthDay (monthLens (isLeap (yearDoy 1970 (t / msPerDay)).1))
          (yearDoy 1970 (t / msPerDay)).2).2 ++
      'T' :: padChars 2 (t % msPerDay / 3600000) ++
      ':' :: padChars 2 (t % msPerDay / 60000 % 60) ++
      ':' :: padChars 2 (t % msPerDay / 1000 % 60) ++
      '.' :: padChars 3 (t % msPerDay % 1000) ++ ['Z'] := rfl
  have hy' : (yearDoy 1970 (t / msPerDay)).1 < 10 ^ 4 := by
    calc (yearDoy 1970 (t / msPerDay)).1 < 10000 := hy4
      _ = 10 ^ 4 := by norm_num
  have hmo' : (monthDay (monthLens (isLeap (yearDoy 1970 (t / msPerDay)).1))
      (yearDoy 1970 (t / msPerDay)).2).1 < 10 ^ 2 := by
    have h12 := hmd.2.1
    calc _ ≤ 12 := h12
      _ < 10 ^ 2 := by norm_num
  have hdd' : (monthDay (monthLens (isLeap (yearDoy 1970 (t / msPerDay)).1))
      (yearDoy 1970 (t / msPerDay)).2).2 < 10 ^ 2 := by
    have h31 := hmd.2.2.2.1
    calc _ ≤ 31 := h31
      _ < 10 ^ 2 := by norm_num
  have hh' : t % msPerDay / 3600000 < 10 ^ 2 := by
    have : t % msPerDay / 3600000 < 24 := by omega
    calc t % msPerDay / 3600000 < 24 := this
      _ < 10 ^ 2 := by norm_num
  have hmi' : t % msPerDay / 60000 % 60 < 10 ^ 2 := by
    have : t % msPerDay / 60000 % 60 < 60 := by omega
    calc t % msPerDay / 60000 % 60 < 60 := this
      _ < 10 ^ 2 := by norm_num
  have hss' : t % msPerDay / 1000 % 60 < 10 ^ 2 := by
    have : t % msPerDay / 1000 % 60 < 60 := by omega
    calc t % msPerDay / 1000 % 60 < 60 := this
      _ < 10 ^ 2 := by norm_num
  have hms' : t % msPerDay % 1000 < 10 ^ 3 := by
    have : t % msPerDay % 1000 < 1000 := by omega
    calc t % msPerDay % 1000 < 1000 := this
      _ = 10 ^ 3 := by norm_num
  set Y := (yearDoy 1970 (t / msPerDay)).1 with hYdef
  set DOY := (yearDoy 1970 (t / msPerDay)).2 with hDOYdef
  set MO := (monthDay (monthLens (isLeap Y)) DOY).1 with hMOdef
  set DD := (monthDay (monthLens (isLeap Y)) DOY).2 with hDDdef
  set R := t % msPerDay with hRdef
  rw [hiso]
  unfold parseIsoChars
  simp only [readDigits_pad 4 0 _ _ hy', Option.some_bind, expectChar_cons,
    Nat.zero_mul, Nat.zero_add, List.cons_append, List.append_assoc]
  simp only [readDigits_pad 2 0 _ _ hmo', Option.some_bind, expectChar_cons,
    Nat.zero_mul, Nat.zero_add, List.cons_append, List.append_assoc]
  simp only [readDigits_pad 2 0 _ _ hdd', Option.some_bind, expectChar_cons,
    Nat.zero_mul, Nat.zero_add, List.cons_append, List.append_assoc]
  simp only [parseTime_pad _ _ _ _ hh' hmi' hss' hms', Option.some_bind]
  have hdays_eq := hyd.2.2
  have hdoy_eq := hmd.2.2.2.2
  simp only [msPerDay] at hdays_eq hRdef ⊢
  rw [Option.some.injEq]
  omega

theorem newDateMs_toISOString (ts : Nat) (h : ts < isoMax) :
    newDateMs (toISOString ts) = some ts := by
  unfold newDateMs toISOString
  exact parseIso_toISO ts h

theorem daysInRange_lb (y n : Nat) : n * 365 ≤ daysInRange y n := by
  induction n generalizing y with
  | zero => simp [daysInRange]
  | succ n ih =>
    have h1 := daysInYear_ge y
    have h2 := ih (y + 1)
    calc (n + 1) * 365 = 365 + n * 365 := by ring
      _ ≤ daysInYear y + daysInRange (y + 1) n := by omega
      _ = daysInRange y (n + 1) := (daysInRange_succ y n).symm

theorem isoMax_lb : 200000000000000 ≤ isoMax := by
  unfold isoMax
  calc (200000000000000 : Nat) ≤ (8030 * 365) * 86400000 := by norm_num
    _ ≤ daysInRange 1970 8030 * 86400000 :=
        Nat.mul_le_mul_right _ (daysInRange_lb 1970 8030)
    _ = daysInRange 1970 8030 * msPerDay := by rw [msPerDay]

/-! ## Filter persistence (`dashboardFilters.ts`)

Model of `getDefaultFilters`, `saveFilters` and `loadFilters`, which store one
`StoredFilterState` per dashboard id under the single localStorage key
`dashboard_filters`. -/

/-- The region filter: the TS union type `'ALL' | 'US' | 'EU'`. -/
inductive Region
  | ALL
  | US
  | EU
deriving DecidableEq

/-- `FilterState` from `FiltersPanel.tsx`: region, selected conditions, and an
optional date range (`Date` modelled as epoch milliseconds). -/
structure FilterState where
  region : Region
  condition : List String
  startDate : Option Nat
  endDate : Option Nat
deriving DecidableEq

/-- `StoredFilterState`: as `FilterState` but with dates as ISO strings. -/
structure StoredFilterState where
  region : Region
  condition : List String
  startDate : Option String
  endDate : Option String
deriving DecidableEq

/-- The object stored under the `dashboard_filters` key. -/
abbrev FiltersMap := List (String × StoredFilterState)

/-- Parsed content of the `dashboard_filters` localStorage slot: `none` when
the key is absent, `some none` when present but not valid JSON (so that
`JSON.parse` throws), `some (some m)` when it parses to the object `m`. -/
abbrev FiltersStore := Option (Option FiltersMap)

def getDefaultFilters : FilterState :=
  { region := Region.ALL, condition := [], startDate := none, endDate := none }

/-- The object written for one dashboard: dates converted to ISO strings. -/
def storedOfFilters (filters : FilterState) : StoredFilterState :=
  { region := filters.region
    condition := filters.condition
    startDate := filters.startDate.map toISOString
    endDate := filters.endDate.map toISOString }

/-- `saveFilters`: reads the stored map (or `{}` when the key is absent), sets
the entry for `dashboardId`, and writes the map back.  When the stored text
does not parse, `JSON.parse` throws inside the `try` and the `catch` leaves
the storage unchanged. -/
def saveFilters (store : FiltersStore) (dashboardId : String)
    (filters : FilterState) : FiltersStore :=
  match store with
  | none => some (some (setKey [] dashboardId (storedOfFilters filters)))
  | some none => some none
  | some (some m) => some (some (setKey m dashboardId (storedOfFilters filters)))

/-- `loadFilters`: returns the defaults when the key is absent, when the text
does not parse (the `catch` path), or when the map has no entry for the
dashboard; otherwise converts the stored ISO strings back with `new Date`
(an unparseable string, i.e. an invalid date, is modelled as `none`). -/
def loadFilters (store : FiltersStore) (dashboardId : String) : FilterState :=
  match store with
  | none => getDefaultFilters
  | some none => getDefaultFilters
  | some (some m) =>
    match lookupKey m dashboardId with
    | none => getDefaultFilters
    | some st =>
      { region := st.region
        condition := st.condition
        startDate := st.startDate.bind newDateMs
        endDate := st.endDate.bind newDateMs }

/-- C1: saving then loading returns the same filter state: same region, same
condition list, and dates denoting the same instants.  The hypotheses say the
initial storage slot is not malformed JSON and the dates are in the range
covered by the simple ISO format (before the year 10000). -/
theorem filters_save_load_roundtrip (store : FiltersStore) (d : String)
    (f : FilterState) (hstore : store ≠ some none)
    (hstart : ∀ ts ∈ f.startDate, ts < isoMax)
    (hend : ∀ ts ∈ f.endDate, ts < isoMax) :
    loadFilters (saveFilters store d f) d = f := by
  have hdates : (storedOfFilters f).startDate.bind newDateMs = f.startDate ∧
      (storedOfFilters f).endDate.bind newDateMs = f.endDate := by
    constructor
    · unfold storedOfFilters
      cases hs : f.startDate with
      | none => simp
      | some ts => simp [newDateMs_toISOString ts (hstart ts (by simp [hs]))]
    · unfold storedOfFilters
      cases hs : f.endDate with
      | none => simp
      | some ts => simp [newDateMs_toISOString ts (hend ts (by simp [hs]))]
  obtain ⟨r, c, sd, ed⟩ := f
  cases store with
  | none =>
    simp only [saveFilters, loadFilters, lookupKey_setKey_self]
    simp only [storedOfFilters] at hdates ⊢
    simp [hdates.1, hdates.2]
  | some inner =>
    cases inner with
    | none => exact absurd rfl hstore
    | some m =>
      simp only [saveFilters, loadFilters, lookupKey_setKey_self]
      simp only [storedOfFilters] at hdates ⊢
      simp [hdates.1, hdates.2]

/-- Witness for C1 at a concrete storage state, dashboard id and filter
state. -/
theorem filters_save_load_roundtrip_witness :
    loadFilters
      (saveFilters (some (some [])) "1"
        { region := Region.US, condition := ["Asthma"],
          startDate := some 1700000000000, endDate := none }) "1" =
      { region := Region.US, condition := ["Asthma"],
        startDate := some 1700000000000, endDate := none } := by
  apply filters_save_load_roundtrip
  · intro h; exact Option.noConfusion (Option.some.inj h)
  · intro ts hts
    have heq : ts = 1700000000000 := by simpa using hts.symm
    subst heq
    exact lt_of_lt_of_le (by norm_num) isoMax_lb
  · intro ts hts
    simp at hts

/-- C8: `loadFilters` is total and defaulting — key absent, malformed JSON,
and missing dashboard entry all yield the default filter state. -/
theorem loadFilters_total_defaults (d : String) (m : FiltersMap) :
    loadFilters none d = getDefaultFilters ∧
    loadFilters (some none) d = getDefaultFilters ∧
    (lookupKey m d = none → loadFilters (some (some m)) d = getDefaultFilters) := by
  refine ⟨rfl, rfl, fun h => ?_⟩
  simp only [loadFilters]
  rw [h]

/-- Witness for C8: the three default cases at concrete inputs. -/
theorem loadFilters_total_defaults_witness :
    loadFilters none "1" = getDefaultFilters ∧
    loadFilters (some none) "1" = getDefaultFilters ∧
    loadFilters (some (some [("2",
      { region := Region.EU, condition := ["flu"], startDate := none,
        endDate := none })])) "1" = getDefaultFilters := by
  have h := loadFilters_total_defaults "1" [("2",
    { region := Region.EU, condition := ["flu"], startDate := none, endDate := none })]
  exact ⟨h.1, h.2.1, h.2.2 (by decide)⟩

/-! ## Dashboard layout persistence (`dashboards.ts`) -/

/-- A dashboard layout: chart id → 1-based position. -/
abbrev DashboardLayout := List (String × Nat)

/-- The object stored under the `dashboards` key. -/
abbrev DashboardStorage := List (String × DashboardLayout)

/-- `getDashboards`: the parsed `dashboards` slot, `{}` when absent. -/
def getDashboards (store : Option DashboardStorage) : DashboardStorage :=
  store.getD []

/-- `getDashboard`: one dashboard's layout, `{}` when missing (an object,
even empty, is truthy in JS, so a present layout is returned as-is). -/
def getDashboard (store : Option DashboardStorage) (dashboardId : String) :
    DashboardLayout :=
  (lookupKey (getDashboards store) dashboardId).getD []

/-- `updateDashboard`: sets one dashboard's layout and writes the map back. -/
def updateDashboard (store : Option DashboardStorage) (dashboardId : String)
    (layout : DashboardLayout) : Option DashboardStorage :=
  some (setKey (getDashboards store) dashboardId layout)

/-- C2: dashboard layout persistence is a keyed update — after
`updateDashboard d L`, `getDashboard d` returns exactly `L` and every other
dashboard id reads the same layout as before. -/
theorem updateDashboard_getDashboard_frame (store : Option DashboardStorage)
    (d : String) (L : DashboardLayout) :
    getDashboard (updateDashboard store d L) d = L ∧
    ∀ d', d' ≠ d → getDashboard (updateDashboard store d L) d' = getDashboard store d' := by
  constructor
  · unfold getDashboard updateDashboard getDashboards
    simp [lookupKey_setKey_self]
  · intro d' hne
    unfold getDashboard updateDashboard getDashboards
    simp [lookupKey_setKey_ne _ _ _ _ hne]

/-- Witness for C2 at a concrete store, updated id and frame id. -/
theorem updateDashboard_getDashboard_frame_witness :
    getDashboard (updateDashboard (some [("2", [("totals", 1)])]) "1"
      [("phases", 1), ("years", 2)]) "1" = [("phases", 1), ("years", 2)] ∧
    getDashboard (updateDashboard (some [("2", [("totals", 1)])]) "1"
      [("phases", 1), ("years", 2)]) "2" =
      getDashboard (some [("2", [("totals", 1)])]) "2" := by
  have h := updateDashboard_getDashboard_frame (some [("2", [("totals", 1)])]) "1"
    [("phases", 1), ("years", 2)]
  exact ⟨h.1, h.2 "2" (by decide)⟩

/-! ## Dashboard component (`Dashboard.tsx`)

Layout-manipulation handlers: delete, add-selected, drag-reorder.  Each
handler also persists the new layout with `updateDashboard`; the layout
computation is modelled here and composed with `updateDashboard` where a
claim mentions persistence. -/

/-- `getDefaultLayout`: the 14 widgets at positions 1..14. -/
def getDefaultLayout : DashboardLayout :=
  [("totals", 1), ("conditions-clinicaltrials", 2), ("conditions-eudract", 3),
   ("sponsors-clinicaltrials", 4), ("sponsors-eudract", 5), ("sponsors-combined", 6),
   ("enrollment-clinicaltrials", 7), ("enrollment-eudract", 8),
   ("status-clinicaltrials", 9), ("status-eudract", 10), ("phases", 11),
   ("years", 12), ("countries", 13), ("durations", 14)]

/-- The chart ids having an entry in the `chartComponents` record (identical
to the default layout's ids); `sortedCharts`' `.filter(Boolean)` keeps
exactly these. -/
def knownChartIds : List String := keysOf getDefaultLayout

/-- `Object.entries(layout).sort(([, a], [, b]) => a - b)`: stable sort of the
entries by ascending position. -/
def sortEntriesByPos (L : DashboardLayout) : DashboardLayout :=
  L.insertionSort (fun e1 e2 => e1.2 ≤ e2.2)

/-- `sortedCharts`, as the list of chart ids: entries sorted by position,
mapped to components, dropping ids without a component. -/
def sortedChartKeys (L : DashboardLayout) : List String :=
  ((sortEntriesByPos L).map Prod.fst).filter (fun c => c ∈ knownChartIds)

def removeAt {α : Type} : List α → Nat → List α
  | [], _ => []
  | _ :: xs, 0 => xs
  | x :: xs, n + 1 => x :: removeAt xs n

def insertAt {α : Type} : Nat → α → List α → List α
  | 0, a, l => a :: l
  | _ + 1, a, [] => [a]
  | n + 1, a, x :: xs => x :: insertAt n a xs

/-- dnd-kit `arrayMove`: remove the element at `i` and re-insert it at `j`. -/
def arrayMove {α : Type} (l : List α) (i j : Nat) : List α :=
  match l[i]? with
  | none => l
  | some x => insertAt j x (removeAt l i)

/-- Rebuilds a layout from an ordered id list with 1-based positions
(`newSortedCharts.forEach((chart, index) => newLayout[id] = index + 1)`). -/
def relabelCharts (ids : List String) : DashboardLayout :=
  ids.enum.map (fun p => (p.2, p.1 + 1))

/-- `handleDragEnd`: guarded by `over && active.id !== over.id` and by both
`findIndex` results being found (`-1` is modelled by `findIdx` returning the
length). -/
def handleDragEnd (L : DashboardLayout) (activeId : String)
    (dropOver : Option String) : DashboardLayout :=
  match dropOver with
  | none => L
  | some overId =>
    if activeId = overId then L
    else
      let sorted := sortedChartKeys L
      let oldIndex := sorted.findIdx (fun k => k = activeId)
      let newIndex := sorted.findIdx (fun k => k = overId)
      if oldIndex < sorted.length ∧ newIndex < sorted.length then
        relabelCharts (arrayMove sorted oldIndex newIndex)
      else L

/-- `handleDeleteChart`: `delete newLayout[chartId]`. -/
def handleDeleteChart (L : DashboardLayout) (chartId : String) : DashboardLayout :=
  eraseKey L chartId

/-- `getMissingCharts`: default-layout ids not present in the layout. -/
def getMissingCharts (L : DashboardLayout) : List String :=
  (keysOf getDefaultLayout).filter (fun c => (lookupKey L c).isNone)

def firstFreeAux : Nat → List Nat → Nat → Nat
  | 0, _, p => p
  | fuel + 1, taken, p => if p ∈ taken then firstFreeAux fuel taken (p + 1) else p

/-- The `while (existingPositions.includes(nextPosition)) nextPosition++` loop
starting at 1; `length + 1` iterations always reach a free position. -/
def firstFreePos (taken : List Nat) : Nat := firstFreeAux (taken.length + 1) taken 1

/-- The `chartIds.forEach((chartId) => newLayout[chartId] = nextPosition++)`
loop. -/
def addChartsFrom (L : DashboardLayout) : List String → Nat → DashboardLayout
  | [], _ => L
  | c :: cs, p => addChartsFrom (setKey L c p) cs (p + 1)

/-- `handleAddSelectedCharts`: no-op on an empty selection, else assigns
consecutive positions starting from the first free one. -/
def handleAddSelectedCharts (L : DashboardLayout) (chartIds : List String) :
    DashboardLayout :=
  if chartIds.isEmpty then L
  else addChartsFrom L chartIds (firstFreePos (L.map Prod.snd))

/-! ### Helper lemmas for the layout handlers -/

theorem filter_ge_length_eq (p : Nat) (l : List Nat) :
    (l.filter (fun x => p ≤ x)).length =
      (l.filter (fun x => p + 1 ≤ x)).length + l.count p := by
  induction l with
  | nil => simp
  | cons a l ih =>
    by_cases h1 : p ≤ a
    · by_cases h2 : p + 1 ≤ a
      · have hne : ¬(a = p) := by omega
        simp [List.filter_cons, h1, h2, List.count_cons, hne, ih]
        omega
      · have heq : a = p := by omega
        simp [List.filter_cons, h1, h2, List.count_cons, heq, ih]
        omega
    · have h2 : ¬(p + 1 ≤ a) := by omega
      have hne : ¬(a = p) := by omega
      simp [List.filter_cons, h1, h2, List.count_cons, hne, ih]

theorem firstFreeAux_not_mem : ∀ fuel (taken : List Nat) p,
    (taken.filter (fun x => p ≤ x)).length < fuel →
    firstFreeAux fuel taken p ∉ taken := by
  intro fuel
  induction fuel with
  | zero => intro taken p h; omega
  | succ fuel ih =>
    intro taken p h
    by_cases hp : p ∈ taken
    · simp only [firstFreeAux, if_pos hp]
      apply ih
      have hc : 0 < taken.count p := List.count_pos_iff.mpr hp
      have := filter_ge_length_eq p taken
      omega
    · simp only [firstFreeAux, if_neg hp]
      exact hp

theorem firstFreePos_not_mem (taken : List Nat) : firstFreePos taken ∉ taken := by
  apply firstFreeAux_not_mem
  have := List.length_filter_le (fun x => 1 ≤ x) taken
  omega

theorem lookupKey_eq_none_iff {α : Type} (l : List (String × α)) (k : String) :
    lookupKey l k = none ↔ k ∉ keysOf l := by
  constructor
  · intro h hk
    induction l with
    | nil => simp [keysOf] at hk
    | cons hd tl ih =>
      obtain ⟨k₀, v₀⟩ := hd
      simp only [keysOf, List.map_cons, List.mem_cons] at hk
      by_cases h0 : k₀ = k
      · simp [lookupKey, h0] at h
      · rcases hk with hk | hk
        · exact h0 hk.symm
        · exact ih (by simpa [lookupKey, h0] using h) hk
  · exact lookupKey_eq_none_of_not_mem l k

theorem keysOf_relabelCharts (ids : List String) : keysOf (relabelCharts ids) = ids := by
  unfold keysOf relabelCharts
  rw [List.map_map]
  have : (Prod.fst ∘ fun p : Nat × String => (p.2, p.1 + 1)) = Prod.snd := rfl
  rw [this, List.enum_map_snd]

theorem snd_relabelCharts (ids : List String) :
    (relabelCharts ids).map Prod.snd = List.range' 1 ids.length := by
  unfold relabelCharts
  rw [List.map_map]
  have h1 : (Prod.snd ∘ fun p : Nat × String => (p.2, p.1 + 1)) =
      (fun p : Nat × String => p.1 + 1) := rfl
  rw [h1]
  have h2 : (fun p : Nat × String => p.1 + 1) = (fun n => n + 1) ∘ Prod.fst := rfl
  rw [h2, ← List.map_map, List.enum_map_fst, List.range'_eq_map_range]
  exact List.map_congr_left fun n _ => Nat.add_comm n 1

theorem insertAt_perm {α : Type} (a : α) : ∀ (n : Nat) (l : List α),
    (insertAt n a l).Perm (a :: l) := by
  intro n
  induction n with
  | zero => intro l; simp [insertAt]
  | succ n ih =>
    intro l
    cases l with
    | nil => simp [insertAt]
    | cons x xs =>
      exact ((ih xs).cons x).trans (List.Perm.swap a x xs)

theorem removeAt_perm {α : Type} : ∀ (l : List α) (i : Nat) (x : α), l[i]? = some x →
    l.Perm (x :: removeAt l i) := by
  intro l
  induction l with
  | nil => intro i x h; simp at h
  | cons y ys ih =>
    intro i x h
    cases i with
    | zero =>
      simp at h
      subst h
      simp [removeAt]
    | succ i =>
      simp only [List.getElem?_cons_succ] at h
      exact ((ih i x h).cons y).trans (List.Perm.swap x y _)

theorem arrayMove_perm {α : Type} (l : List α) (i j : Nat) (h : i < l.length) :
    (arrayMove l i j).Perm l := by
  have hx : l[i]? = some l[i] := List.getElem?_eq_getElem h
  unfold arrayMove
  rw [hx]
  exact (insertAt_perm _ j _).trans (removeAt_perm l i _ hx).symm

theorem sortedChartKeys_perm (L : DashboardLayout)
    (hk : ∀ id ∈ keysOf L, id ∈ knownChartIds) :
    (sortedChartKeys L).Perm (keysOf L) := by
  unfold sortedChartKeys
  have hperm : ((sortEntriesByPos L).map Prod.fst).Perm (keysOf L) :=
    (List.perm_insertionSort _ L).map Prod.fst
  have hfil : ((sortEntriesByPos L).map Prod.fst).filter (fun c => c ∈ knownChartIds) =
      (sortEntriesByPos L).map Prod.fst := by
    apply List.filter_eq_self.mpr
    intro a ha
    have ham : a ∈ keysOf L := hperm.mem_iff.mp ha
    simpa using hk a ham
  rw [hfil]
  exact hperm

theorem handleDragEnd_eq (L : DashboardLayout) (activeId overId : String)
    (ha : activeId ∈ sortedChartKeys L) (ho : overId ∈ sortedChartKeys L)
    (hne : activeId ≠ overId) :
    handleDragEnd L activeId (some overId) =
      relabelCharts (arrayMove (sortedChartKeys L)
        ((sortedChartKeys L).findIdx (fun k => k = activeId))
        ((sortedChartKeys L).findIdx (fun k => k = overId))) := by
  have h1 : (sortedChartKeys L).findIdx (fun k => k = activeId) <
      (sortedChartKeys L).length :=
    List.findIdx_lt_length_of_exists ⟨activeId, ha, by simp⟩
  have h2 : (sortedChartKeys L).findIdx (fun k => k = overId) <
      (sortedChartKeys L).length :=
    List.findIdx_lt_length_of_exists ⟨overId, ho, by simp⟩
  simp only [handleDragEnd]
  rw [if_neg hne, if_pos ⟨h1, h2⟩]

theorem handleDragEnd_parts (L : DashboardLayout) (activeId overId : String)
    (hk : ∀ id ∈ keysOf L, id ∈ knownChartIds)
    (ha : activeId ∈ sortedChartKeys L) (ho : overId ∈ sortedChartKeys L)
    (hne : activeId ≠ overId) :
    keysOf (handleDragEnd L activeId (some overId)) =
      arrayMove (sortedChartKeys L)
        ((sortedChartKeys L).findIdx (fun k => k = activeId))
        ((sortedChartKeys L).findIdx (fun k => k = overId)) ∧
    (keysOf (handleDragEnd L activeId (some overId))).Perm (keysOf L) ∧
    (handleDragEnd L activeId (some overId)).map Prod.snd =
      List.range' 1 (keysOf L).length := by
  have heq := handleDragEnd_eq L activeId overId ha ho hne
  have h1 : (sortedChartKeys L).findIdx (fun k => k = activeId) <
      (sortedChartKeys L).length :=
    List.findIdx_lt_length_of_exists ⟨activeId, ha, by simp⟩
  have hmove : (arrayMove (sortedChartKeys L)
      ((sortedChartKeys L).findIdx (fun k => k = activeId))
      ((sortedChartKeys L).findIdx (fun k => k = overId))).Perm (sortedChartKeys L) :=
    arrayMove_perm _ _ _ h1
  have hperm := sortedChartKeys_perm L hk
  refine ⟨?_, ?_, ?_⟩
  · rw [heq, keysOf_relabelCharts]
  · rw [heq, keysOf_relabelCharts]
    exact hmove.trans hperm
  · rw [heq, snd_relabelCharts]
    congr 1
    exact (hmove.trans hperm).length_eq

/-- C4: a drag of an existing widget onto a different existing widget
re-indexes the layout: the chart ids are, in order, the result of moving the
dragged id from its old index to the target index in the position-sorted
chart list; the id multiset is unchanged; and the positions are the
consecutive integers `1..n`. -/
theorem handleDragEnd_reindexes (L : DashboardLayout) (activeId overId : String)
    (hk : ∀ id ∈ keysOf L, id ∈ knownChartIds)
    (ha : activeId ∈ sortedChartKeys L) (ho : overId ∈ sortedChartKeys L)
    (hne : activeId ≠ overId) :
    keysOf (handleDragEnd L activeId (some overId)) =
      arrayMove (sortedChartKeys L)
        ((sortedChartKeys L).findIdx (fun k => k = activeId))
        ((sortedChartKeys L).findIdx (fun k => k = overId)) ∧
    (keysOf (handleDragEnd L activeId (some overId))).Perm (keysOf L) ∧
    (handleDragEnd L activeId (some overId)).map Prod.snd =
      List.range' 1 (keysOf L).length :=
  handleDragEnd_parts L activeId overId hk ha ho hne

/-- Witness for C4: dragging `totals` onto `years` in a three-widget layout. -/
theorem handleDragEnd_reindexes_witness :
    keysOf (handleDragEnd [("totals", 1), ("phases", 2), ("years", 3)] "totals"
        (some "years")) =
      arrayMove (sortedChartKeys [("totals", 1), ("phases", 2), ("years", 3)])
        ((sortedChartKeys [("totals", 1), ("phases", 2), ("years", 3)]).findIdx
          (fun k => k = "totals"))
        ((sortedChartKeys [("totals", 1), ("phases", 2), ("years", 3)]).findIdx
          (fun k => k = "years")) ∧
    (keysOf (handleDragEnd [("totals", 1), ("phases", 2), ("years", 3)] "totals"
        (some "years"))).Perm
      (keysOf [("totals", 1), ("phases", 2), ("years", 3)]) ∧
    (handleDragEnd [("totals", 1), ("phases", 2), ("years", 3)] "totals"
        (some "years")).map Prod.snd =
      List.range' 1 (keysOf [("totals", 1), ("phases", 2), ("years", 3)]).length :=
  handleDragEnd_reindexes [("totals", 1), ("phases", 2), ("years", 3)] "totals" "years"
    (by decide) (by decide) (by decide) (by decide)

/-- C5: deleting a chart removes exactly that binding: the deleted id reads
back as absent, every other id keeps its position, and the new layout is
persisted for the current dashboard id. -/
theorem handleDeleteChart_removes_only (store : Option DashboardStorage)
    (dashboardId : String) (L : DashboardLayout) (c : String)
    (hnd : (keysOf L).Nodup) (hc : c ∈ keysOf L) :
    lookupKey (handleDeleteChart L c) c = none ∧
    (∀ c', c' ≠ c → lookupKey (handleDeleteChart L c) c' = lookupKey L c') ∧
    getDashboard (updateDashboard store dashboardId (handleDeleteChart L c))
      dashboardId = handleDeleteChart L c := by
  refine ⟨lookupKey_eraseKey_self L c hnd,
    fun c' h => lookupKey_eraseKey_ne L c c' h, ?_⟩
  unfold getDashboard updateDashboard getDashboards
  simp [lookupKey_setKey_self]

/-- Witness for C5: deleting `phases` from the default layout. -/
theorem handleDeleteChart_removes_only_witness :
    lookupKey (handleDeleteChart getDefaultLayout "phases") "phases" = none ∧
    lookupKey (handleDeleteChart getDefaultLayout "phases") "totals" =
      lookupKey getDefaultLayout "totals" ∧
    getDashboard (updateDashboard none "1" (handleDeleteChart getDefaultLayout
      "phases")) "1" = handleDeleteChart getDefaultLayout "phases" := by
  have h := handleDeleteChart_removes_only none "1" getDefaultLayout "phases"
    (by decide) (by decide)
  exact ⟨h.1, h.2.1 "totals" (by decide), h.2.2⟩

theorem mem_missing (L : DashboardLayout) (c : String)
    (h : c ∈ getMissingCharts L) :
    c ∈ knownChartIds ∧ (lookupKey L c).isNone := by
  unfold getMissingCharts at h
  have h1 := List.of_mem_filter h
  have h2 := List.mem_of_mem_filter h
  exact ⟨h2, by simpa using h1⟩

theorem addOne_eq (L : DashboardLayout) (c : String)
    (hc : (lookupKey L c).isNone) :
    handleAddSelectedCharts L [c] = L ++ [(c, firstFreePos (L.map Prod.snd))] := by
  have hmem : c ∉ keysOf L :=
    (lookupKey_eq_none_iff L c).mp (Option.isNone_iff_eq_none.mp hc)
  show (if ([c] : List String).isEmpty then L
    else addChartsFrom L [c] (firstFreePos (L.map Prod.snd))) = _
  rw [if_neg (by simp)]
  show setKey L c _ = _
  exact setKey_of_not_mem L c _ hmem

/-- The distinctness invariant carried through the induction: unique chart
ids, ids drawn from the known chart set, and pairwise distinct positions. -/
def LayoutInv (L : DashboardLayout) : Prop :=
  (keysOf L).Nodup ∧ (∀ id ∈ keysOf L, id ∈ knownChartIds) ∧
    (L.map Prod.snd).Nodup

theorem layoutInv_default : LayoutInv getDefaultLayout :=
  ⟨by decide, by decide, by decide⟩

theorem layoutInv_del (L : DashboardLayout) (c : String) (h : LayoutInv L) :
    LayoutInv (handleDeleteChart L c) := by
  obtain ⟨h1, h2, h3⟩ := h
  have hsub := eraseKey_sublist L c
  exact ⟨h1.sublist (hsub.map Prod.fst),
    fun id hid => h2 id ((hsub.map Prod.fst).subset hid),
    h3.sublist (hsub.map Prod.snd)⟩

theorem layoutInv_drag (L : DashboardLayout) (a o : String)
    (ha : a ∈ sortedChartKeys L) (ho : o ∈ sortedChartKeys L) (hne : a ≠ o)
    (h : LayoutInv L) : LayoutInv (handleDragEnd L a (some o)) := by
  obtain ⟨h1, h2, h3⟩ := h
  have parts := handleDragEnd_parts L a o h2 ha ho hne
  refine ⟨parts.2.1.symm.nodup h1, fun id hid => h2 id (parts.2.1.subset hid), ?_⟩
  rw [parts.2.2]
  exact List.nodup_range' 1 (keysOf L).length

theorem layoutInv_addOne (L : DashboardLayout) (c : String)
    (hc : c ∈ getMissingCharts L) (h : LayoutInv L) :
    LayoutInv (handleAddSelectedCharts L [c]) := by
  obtain ⟨h1, h2, h3⟩ := h
  obtain ⟨hck, hcn⟩ := mem_missing L c hc
  have hnm : c ∉ keysOf L := (lookupKey_eq_none_iff L c).mp
    (Option.isNone_iff_eq_none.mp hcn)
  rw [addOne_eq L c hcn]
  have hp := firstFreePos_not_mem (L.map Prod.snd)
  refine ⟨?_, ?_, ?_⟩
  · have hk : keysOf (L ++ [(c, firstFreePos (L.map Prod.snd))]) =
        keysOf L ++ [c] := by simp [keysOf]
    rw [hk, List.nodup_append]
    exact ⟨h1, List.nodup_singleton c, by simpa using hnm⟩
  · intro id hid
    have : id ∈ keysOf L ++ [c] := by simpa [keysOf] using hid
    rcases List.mem_append.mp this with hl | hr
    · exact h2 id hl
    · rw [List.mem_singleton.mp hr]
      exact hck
  · have hs : (L ++ [(c, firstFreePos (L.map Prod.snd))]).map Prod.snd =
        L.map Prod.snd ++ [firstFreePos (L.map Prod.snd)] := by simp
    rw [hs, List.nodup_append]
    exact ⟨h3, List.nodup_singleton _, by simpa using hp⟩

/-- Layout reachability exactly as C9 states it: from the default layout,
by deletes of present ids, valid drags, and adds of any duplicate-free
subset of the missing chart ids. -/
inductive ReachableLayout : DashboardLayout → Prop
  | base : ReachableLayout getDefaultLayout
  | del (L : DashboardLayout) (c : String) (hc : c ∈ keysOf L) :
      ReachableLayout L → ReachableLayout (handleDeleteChart L c)
  | drag (L : DashboardLayout) (a o : String) (ha : a ∈ sortedChartKeys L)
      (ho : o ∈ sortedChartKeys L) (hne : a ≠ o) :
      ReachableLayout L → ReachableLayout (handleDragEnd L a (some o))
  | add (L : DashboardLayout) (cs : List String)
      (hsub : ∀ c ∈ cs, c ∈ getMissingCharts L) (hnd : cs.Nodup) :
      ReachableLayout L → ReachableLayout (handleAddSelectedCharts L cs)

/-- Layout reachability with adds restricted to a single missing chart: the
amended reachable set for C9. -/
inductive ReachableLayoutOne : DashboardLayout → Prop
  | base : ReachableLayoutOne getDefaultLayout
  | del (L : DashboardLayout) (c : String) (hc : c ∈ keysOf L) :
      ReachableLayoutOne L → ReachableLayoutOne (handleDeleteChart L c)
  | drag (L : DashboardLayout) (a o : String) (ha : a ∈ sortedChartKeys L)
      (ho : o ∈ sortedChartKeys L) (hne : a ≠ o) :
      ReachableLayoutOne L → ReachableLayoutOne (handleDragEnd L a (some o))
  | addOne (L : DashboardLayout) (c : String) (hc : c ∈ getMissingCharts L) :
      ReachableLayoutOne L → ReachableLayoutOne (handleAddSelectedCharts L [c])

theorem reachableOne_inv (L : DashboardLayout) (h : ReachableLayoutOne L) :
    LayoutInv L := by
  induction h with
  | base => exact layoutInv_default
  | del L c hc hr ih => exact layoutInv_del L c ih
  | drag L a o ha ho hne hr ih => exact layoutInv_drag L a o ha ho hne ih
  | addOne L c hc hr ih => exact layoutInv_addOne L c hc ih

/-- C9 (counterexample to the claim as stated): deleting the widgets at
positions 2 and 4 and then adding both back in one `handleAddSelectedCharts`
call yields a reachable layout with a duplicated position — the handler
probes only the first assigned position for freeness, so the second chart
receives position 3, which is still taken by `conditions-eudract`. -/
theorem layout_positions_clash_cex :
    ReachableLayout (handleAddSelectedCharts (handleDeleteChart (handleDeleteChart
      getDefaultLayout "conditions-clinicaltrials") "sponsors-clinicaltrials")
      ["conditions-clinicaltrials", "sponsors-clinicaltrials"]) ∧
    ¬ ((handleAddSelectedCharts (handleDeleteChart (handleDeleteChart
      getDefaultLayout "conditions-clinicaltrials") "sponsors-clinicaltrials")
      ["conditions-clinicaltrials", "sponsors-clinicaltrials"]).map
        Prod.snd).Nodup := by
  constructor
  · exact ReachableLayout.add _ _ (by decide) (by decide)
      (ReachableLayout.del _ _ (by decide)
        (ReachableLayout.del _ _ (by decide) ReachableLayout.base))
  · decide

/-- C9 (amended): starting from the default layout, every layout reachable by
deletes of present charts, valid drags, and adds of a single missing chart
assigns pairwise distinct positions to its widgets. -/
theorem reachable_positions_nodup_amended (L : DashboardLayout)
    (h : ReachableLayoutOne L) : (L.map Prod.snd).Nodup :=
  (reachableOne_inv L h).2.2

/-- Witness for the amended C9 at a concrete reachable layout. -/
theorem reachable_positions_nodup_amended_witness :
    (getDefaultLayout.map Prod.snd).Nodup :=
  reachable_positions_nodup_amended getDefaultLayout ReachableLayoutOne.base

/-! ## Top-10 chart transforms (`ConditionsChartWidget.tsx`, `Charts.tsx`)

Aggregation payloads (`Record<string, number>`) are modelled as association
lists in object key order; `Array.prototype.sort` (stable) is modelled by
`List.insertionSort` with the comparator's ordering. -/

inductive Source
  | clinicaltrials
  | eudract

structure ConditionsData where
  clinicaltrials_conditions : List (String × Nat)
  eudract_conditions : List (String × Nat)

instance : IsTotal (String × Nat) (fun a b => b.2 ≤ a.2) :=
  ⟨fun a b => le_total b.2 a.2⟩

instance : IsTrans (String × Nat) (fun a b => b.2 ≤ a.2) :=
  ⟨fun _ _ _ h1 h2 => le_trans h2 h1⟩

/-- `entries.sort((a, b) => b[1] - a[1])`: stable descending sort by count. -/
def sortByCountDesc (l : List (String × Nat)) : List (String × Nat) :=
  l.insertionSort (fun a b => b.2 ≤ a.2)

/-- The condition map the widget selects for its source. -/
def condSource (source : Source) (data : ConditionsData) : List (String × Nat) :=
  match source with
  | Source.clinicaltrials => data.clinicaltrials_conditions
  | Source.eudract => data.eudract_conditions

/-- `transformData` of `ConditionsChartWidget`: sort descending by count and
`.slice(0, 10)`; the final `.map(([name, value]) => ({name, value}))` is the
identity on the modelled pairs. -/
def transformData (source : Source) (data : ConditionsData) : List (String × Nat) :=
  (sortByCountDesc (condSource source data)).take 10

/-- JS object spread `{...ct, ...eu}`: the keys of `ct` in order, each with
`eu`'s value when the key is also in `eu` (overwrite), followed by the
`eu`-only keys in order. -/
def spreadMerge (ct eu : List (String × Nat)) : List (String × Nat) :=
  ct.map (fun e => (e.1, (lookupKey eu e.1).getD e.2)) ++
    eu.filter (fun e => (lookupKey ct e.1).isNone)

/-- The `reduce` over the merged object's entries:
`acc[sponsor] = (acc[sponsor] || 0) + count`. -/
def reduceSum (l : List (String × Nat)) : List (String × Nat) :=
  l.foldl (fun acc e => setKey acc e.1 ((lookupKey acc e.1).getD 0 + e.2)) []

/-- `topCombinedSponsors` in `Charts.tsx`. -/
def topCombinedSponsors (ct eu : List (String × Nat)) : List (String × Nat) :=
  (sortByCountDesc (reduceSum (spreadMerge ct eu))).take 10

/-- The merge the claim describes (not the code): counts summed per sponsor
across the two maps. -/
def sumMergeSpec (ct eu : List (String × Nat)) : List (String × Nat) :=
  ct.map (fun e => (e.1, e.2 + (lookupKey eu e.1).getD 0)) ++
    eu.filter (fun e => (lookupKey ct e.1).isNone)

/-- The combined top-10 computation as the claim describes it. -/
def topCombinedSponsorsSpec (ct eu : List (String × Nat)) : List (String × Nat) :=
  (sortByCountDesc (sumMergeSpec ct eu)).take 10

theorem sortTake_props (l : List (String × Nat)) :
    ((sortByCountDesc l).take 10).length ≤ 10 ∧
    (∀ p ∈ (sortByCountDesc l).take 10, p ∈ l) ∧
    List.Pairwise (fun a b : String × Nat => b.2 ≤ a.2) ((sortByCountDesc l).take 10) ∧
    ((sortByCountDesc l).take 10 ++ (sortByCountDesc l).drop 10).Perm l ∧
    (∀ a ∈ (sortByCountDesc l).take 10, ∀ b ∈ (sortByCountDesc l).drop 10,
      b.2 ≤ a.2) := by
  have hperm : (sortByCountDesc l).Perm l := List.perm_insertionSort _ l
  have hsorted : List.Pairwise (fun a b : String × Nat => b.2 ≤ a.2)
      (sortByCountDesc l) := List.sorted_insertionSort _ l
  have hsplit : (sortByCountDesc l).take 10 ++ (sortByCountDesc l).drop 10 =
      sortByCountDesc l := List.take_append_drop 10 _
  have hpa := List.pairwise_append.mp (by rw [hsplit]; exact hsorted)
  refine ⟨List.length_take_le 10 _, ?_, hpa.1, by rw [hsplit]; exact hperm, hpa.2.2⟩
  intro p hp
  exact hperm.subset (List.take_subset 10 _ hp)

theorem lookup_spread_fst (ct eu : List (String × Nat)) (k : String) :
    lookupKey (ct.map (fun e => (e.1, (lookupKey eu e.1).getD e.2))) k =
      (lookupKey ct k).map (fun w => (lookupKey eu k).getD w) := by
  induction ct with
  | nil => simp [lookupKey]
  | cons hd tl ih =>
    obtain ⟨k0, v0⟩ := hd
    by_cases h : k0 = k
    · subst h; simp [lookupKey]
    · simp [lookupKey, h, ih]

theorem lookup_spread_snd (ct eu : List (String × Nat)) (k : String) :
    lookupKey (eu.filter (fun e => (lookupKey ct e.1).isNone)) k =
      if (lookupKey ct k).isNone then lookupKey eu k else none := by
  induction eu with
  | nil => simp [lookupKey]
  | cons hd tl ih =>
    obtain ⟨k0, v0⟩ := hd
    by_cases hp : (lookupKey ct k0).isNone
    · by_cases h : k0 = k
      · subst h
        simp [List.filter_cons, hp, lookupKey]
      · simp [List.filter_cons, hp, lookupKey, h, ih]
    · by_cases h : k0 = k
      · subst h
        simp [List.filter_cons, hp, ih, lookupKey]
      · simp [List.filter_cons, hp, lookupKey, h, ih]

theorem lookup_append_match {α : Type} (l1 l2 : List (String × α)) (k : String) :
    lookupKey (l1 ++ l2) k =
      match lookupKey l1 k with
      | some v => some v
      | none => lookupKey l2 k := by
  induction l1 with
  | nil => simp [lookupKey]
  | cons hd tl ih =>
    obtain ⟨k0, v0⟩ := hd
    by_cases h : k0 = k <;> simp [lookupKey, h, ih]

theorem lookup_spreadMerge (ct eu : List (String × Nat)) (k : String) :
    lookupKey (spreadMerge ct eu) k =
      match lookupKey eu k with
      | some v => some v
      | none => lookupKey ct k := by
  unfold spreadMerge
  rw [lookup_append_match, lookup_spread_fst, lookup_spread_snd]
  cases hct : lookupKey ct k <;> cases heu : lookupKey eu k <;> simp

theorem reduceSum_aux (l : List (String × Nat)) :
    ∀ acc : List (String × Nat), (∀ k ∈ keysOf l, k ∉ keysOf acc) →
    (keysOf l).Nodup →
    l.foldl (fun acc e => setKey acc e.1 ((lookupKey acc e.1).getD 0 + e.2)) acc =
      acc ++ l := by
  induction l with
  | nil => intro acc _ _; simp
  | cons hd tl ih =>
    intro acc hdisj hnd
    obtain ⟨k, v⟩ := hd
    have hk : k ∉ keysOf acc := hdisj k (by simp [keysOf])
    have hlk : lookupKey acc k = none := lookupKey_eq_none_of_not_mem acc k hk
    simp only [List.foldl_cons]
    rw [show setKey acc k ((lookupKey acc k).getD 0 + v) = acc ++ [(k, v)] by
      rw [hlk]; simpa using setKey_of_not_mem acc k v hk]
    simp only [keysOf, List.map_cons, List.nodup_cons] at hnd
    rw [ih (acc ++ [(k, v)]) ?_ hnd.2]
    · simp
    · intro k' hk'
      have hne : k' ≠ k := by
        intro h; subst h; exact hnd.1 (by simpa [keysOf] using hk')
      have hnacc : k' ∉ keysOf acc := hdisj k'
        (by simp only [keysOf, List.map_cons, List.mem_cons]
            right
            simpa [keysOf] using hk')
      have hkeys : keysOf (acc ++ [(k, v)]) = keysOf acc ++ [k] := by simp [keysOf]
      rw [hkeys]
      simp only [List.mem_append, List.mem_singleton]
      rintro (h | h)
      · exact hnacc h
      · exact hne h

theorem reduceSum_eq_self (l : List (String × Nat)) (h : (keysOf l).Nodup) :
    reduceSum l = l := by
  unfold reduceSum
  simpa using reduceSum_aux l [] (by simp [keysOf]) h

theorem keysOf_spreadMerge_nodup (ct eu : List (String × Nat))
    (h1 : (keysOf ct).Nodup) (h2 : (keysOf eu).Nodup) :
    (keysOf (spreadMerge ct eu)).Nodup := by
  unfold spreadMerge keysOf
  rw [List.map_append, List.nodup_append]
  refine ⟨?_, ?_, ?_⟩
  · rw [List.map_map]
    have heq : (Prod.fst ∘ fun e : String × Nat =>
        (e.1, (lookupKey eu e.1).getD e.2)) = Prod.fst := rfl
    rw [heq]
    exact h1
  · exact h2.sublist ((List.filter_sublist eu).map Prod.fst)
  · intro a ha hb
    rw [List.map_map] at ha
    have heq : (Prod.fst ∘ fun e : String × Nat =>
        (e.1, (lookupKey eu e.1).getD e.2)) = Prod.fst := rfl
    rw [heq] at ha
    obtain ⟨e, he, hea⟩ := List.mem_map.mp hb
    have hpred := List.of_mem_filter he
    have : (lookupKey ct e.1).isNone := by simpa using hpred
    have hnone : lookupKey ct e.1 = none := Option.isNone_iff_eq_none.mp this
    have : e.1 ∉ keysOf ct := (lookupKey_eq_none_iff ct e.1).mp hnone
    rw [hea] at this
    exact this ha

/-- C3 counterexample: for a sponsor present in both maps the code's combined
value is the EudraCT count (the object spread `{...ct, ...eu}` overwrites
before the reduce ever runs), not the sum the claim describes: with
`ct = {A: 5}` and `eu = {A: 3}` the code yields `A ↦ 3` while the claim's
sum-merge yields `A ↦ 8`. -/
theorem topCombinedSponsors_not_sum_cex :
    topCombinedSponsors [("A", 5)] [("A", 3)] = [("A", 3)] ∧
    topCombinedSponsorsSpec [("A", 5)] [("A", 3)] = [("A", 8)] ∧
    ([("A", 3)] : List (String × Nat)) ≠ [("A", 8)] :=
  ⟨by decide, by decide, by decide⟩

/-- C3 (amended): `transformData` returns at most 10 pairs taken from the
selected condition map, sorted non-increasingly by count and containing the
largest counts; the combined top-sponsors computation applies the same
sort-and-take-10 step to the merge in which a sponsor present in both maps
receives the EudraCT count (right-biased overwrite), and a sponsor present in
only one map its single count. -/
theorem top10_transform_and_combined :
    (∀ (source : Source) (data : ConditionsData),
      (transformData source data).length ≤ 10 ∧
      (∀ p ∈ transformData source data, p ∈ condSource source data) ∧
      List.Pairwise (fun a b : String × Nat => b.2 ≤ a.2) (transformData source data) ∧
      (∃ rest, (transformData source data ++ rest).Perm (condSource source data) ∧
        ∀ a ∈ transformData source data, ∀ b ∈ rest, b.2 ≤ a.2)) ∧
    (∀ ct eu : List (String × Nat), (keysOf ct).Nodup → (keysOf eu).Nodup →
      (∀ k v, lookupKey eu k = some v →
        lookupKey (reduceSum (spreadMerge ct eu)) k = some v) ∧
      (∀ k, lookupKey eu k = none →
        lookupKey (reduceSum (spreadMerge ct eu)) k = lookupKey ct k) ∧
      topCombinedSponsors ct eu =
        (sortByCountDesc (reduceSum (spreadMerge ct eu))).take 10 ∧
      (topCombinedSponsors ct eu).length ≤ 10 ∧
      (∀ p ∈ topCombinedSponsors ct eu, p ∈ reduceSum (spreadMerge ct eu)) ∧
      List.Pairwise (fun a b : String × Nat => b.2 ≤ a.2) (topCombinedSponsors ct eu) ∧
      (∃ rest, (topCombinedSponsors ct eu ++ rest).Perm (reduceSum (spreadMerge ct eu)) ∧
        ∀ a ∈ topCombinedSponsors ct eu, ∀ b ∈ rest, b.2 ≤ a.2)) := by
  constructor
  · intro source data
    have h := sortTake_props (condSource source data)
    exact ⟨h.1, h.2.1, h.2.2.1, ⟨(sortByCountDesc (condSource source data)).drop 10,
      h.2.2.2.1, h.2.2.2.2⟩⟩
  · intro ct eu h1 h2
    have hred : reduceSum (spreadMerge ct eu) = spreadMerge ct eu :=
      reduceSum_eq_self _ (keysOf_spreadMerge_nodup ct eu h1 h2)
    have hst := sortTake_props (reduceSum (spreadMerge ct eu))
    refine ⟨?_, ?_, rfl, hst.1, hst.2.1, hst.2.2.1,
      ⟨(sortByCountDesc (reduceSum (spreadMerge ct eu))).drop 10,
        hst.2.2.2.1, hst.2.2.2.2⟩⟩
    · intro k v hv
      rw [hred, lookup_spreadMerge, hv]
    · intro k hv
      rw [hred, lookup_spreadMerge, hv]

/-- Witness for the amended C3 at concrete maps. -/
theorem top10_transform_and_combined_witness :
    (transformData Source.clinicaltrials
      ⟨[("flu", 2), ("asthma", 7)], []⟩).length ≤ 10 ∧
    lookupKey (reduceSum (spreadMerge [("A", 5)] [("B", 3)])) "B" = some 3 ∧
    lookupKey (reduceSum (spreadMerge [("A", 5)] [("B", 3)])) "A" = some 5 := by
  have ha := top10_transform_and_combined.1 Source.clinicaltrials
    ⟨[("flu", 2), ("asthma", 7)], []⟩
  have hb := top10_transform_and_combined.2 [("A", 5)] [("B", 3)]
    (by decide) (by decide)
  exact ⟨ha.1, hb.1 "B" 3 (by decide), by rw [hb.2.1 "A" (by decide)]; decide⟩

/-! ## Filter query string (`buildQueryString` in `BaseChartWidget`, both
variants of which carry an identical copy)

`URLSearchParams` (external web API) is modelled as the ordered parameter
list plus its `application/x-www-form-urlencoded` serialisation. -/

/-- The literal carried by each `Region` value. -/
def regionParam : Region → String
  | Region.ALL => "ALL"
  | Region.US => "US"
  | Region.EU => "EU"

def hexDigitChar (n : Nat) : Char :=
  if n < 10 then Char.ofNat (48 + n) else Char.ofNat (55 + n)

def percentByte (b : Nat) : List Char := ['%', hexDigitChar (b / 16), hexDigitChar (b % 16)]

/-- UTF-8 bytes of a code point. -/
def utf8Bytes (n : Nat) : List Nat :=
  if n < 128 then [n]
  else if n < 2048 then [192 + n / 64, 128 + n % 64]
  else if n < 65536 then [224 + n / 4096, 128 + n / 64 % 64, 128 + n % 64]
  else [240 + n / 262144, 128 + n / 4096 % 64, 128 + n / 64 % 64, 128 + n % 64]

/-- Form encoding of one character as used by `URLSearchParams.toString`. -/
def formEncodeChar (c : Char) : List Char :=
  if c.isAlphanum || c = '-' || c = '_' || c = '.' || c = '*' then [c]
  else if c = ' ' then ['+']
  else ((utf8Bytes c.toNat).map percentByte).flatten

def formEncode (s : String) : String := String.mk ((s.data.map formEncodeChar).flatten)

/-- One `name=value` pair of `URLSearchParams.toString`. -/
def serializeParam (p : String × String) : String :=
  formEncode p.1 ++ "=" ++ formEncode p.2

/-- `&`-joining of the serialised pairs. -/
def joinParams : List String → String
  | [] => ""
  | [x] => x
  | x :: xs => x ++ "&" ++ joinParams xs

/-- `toISOString().split('T')[0]`: the `YYYY-MM-DD` part of the ISO string. -/
def isoDateOnly (t : Nat) : String :=
  String.mk ((isoChars t).takeWhile (fun c => c ≠ 'T'))

/-- The parameter list `buildQueryString` appends: region when not `ALL`, one
`conditions` entry per selected condition in order (the `length > 0` guard is
the identity on the empty list), then the date bounds as `YYYY-MM-DD`. -/
def buildParams (filters : FilterState) : List (String × String) :=
  (if filters.region ≠ Region.ALL then [("region", regionParam filters.region)] else []) ++
  filters.condition.map (fun c => ("conditions", c)) ++
  (match filters.startDate with
   | some t => [("start_date", isoDateOnly t)]
   | none => []) ++
  (match filters.endDate with
   | some t => [("end_date", isoDateOnly t)]
   | none => [])

/-- `buildQueryString`: empty for absent filters, else `?` + the serialised
parameters when any parameter applies, and the empty string otherwise. -/
def buildQueryString (filters : Option FilterState) : String :=
  match filters with
  | none => ""
  | some f =>
    let queryString := joinParams ((buildParams f).map serializeParam)
    if queryString = "" then "" else "?" ++ queryString

theorem takeWhile_append_T (xs rest : List Char) (h : ∀ c ∈ xs, c ≠ 'T') :
    (xs ++ 'T' :: rest).takeWhile (fun c => c ≠ 'T') = xs := by
  induction xs with
  | nil => simp
  | cons x xsp ih =>
    have hx : x ≠ 'T' := h x (by simp)
    simp only [List.cons_append, List.takeWhile_cons]
    rw [if_pos (by simpa using hx)]
    rw [ih (fun c hc => h c (by simp [hc]))]

theorem isoDateOnly_shape (t : Nat) (ht : t < isoMax) :
    ∃ y m d, y < 10000 ∧ 1 ≤ m ∧ m ≤ 12 ∧ 1 ≤ d ∧ d ≤ 31 ∧
      isoDateOnly t =
        String.mk (padChars 4 y ++ '-' :: padChars 2 m ++ '-' :: padChars 2 d) := by
  have hdays : t / msPerDay < daysInRange 1970 8030 := by
    apply Nat.div_lt_of_lt_mul
    calc t < isoMax := ht
      _ = msPerDay * daysInRange 1970 8030 := by rw [isoMax, Nat.mul_comm]
  have hyd := yearDoy_spec (t / msPerDay)
  have hy4 : (yearDoy 1970 (t / msPerDay)).1 < 10000 := year_lt_of_days_lt hdays
  have hdoy366 : (yearDoy 1970 (t / msPerDay)).2 < 366 :=
    lt_of_lt_of_le hyd.2.1 (daysInYear_le _)
  have hdoysum : (yearDoy 1970 (t / msPerDay)).2 <
      (monthLens (isLeap (yearDoy 1970 (t / msPerDay)).1)).sum := by
    rw [sum_monthLens_eq]; exact hyd.2.1
  have hmd := monthDay_spec_concrete (isLeap (yearDoy 1970 (t / msPerDay)).1)
    (yearDoy 1970 (t / msPerDay)).2 hdoy366 hdoysum
  have hy' : (yearDoy 1970 (t / msPerDay)).1 < 10 ^ 4 :=
    lt_of_lt_of_eq hy4 (by norm_num)
  have hmo' : (monthDay (monthLens (isLeap (yearDoy 1970 (t / msPerDay)).1))
      (yearDoy 1970 (t / msPerDay)).2).1 < 10 ^ 2 := by
    have h12 := hmd.2.1
    calc _ ≤ 12 := h12
      _ < 10 ^ 2 := by norm_num
  have hdd' : (monthDay (monthLens (isLeap (yearDoy 1970 (t / msPerDay)).1))
      (yearDoy 1970 (t / msPerDay)).2).2 < 10 ^ 2 := by
    have h31 := hmd.2.2.2.1
    calc _ ≤ 31 := h31
      _ < 10 ^ 2 := by norm_num
  refine ⟨(yearDoy 1970 (t / msPerDay)).1,
    (monthDay (monthLens (isLeap (yearDoy 1970 (t / msPerDay)).1))
      (yearDoy 1970 (t / msPerDay)).2).1,
    (monthDay (monthLens (isLeap (yearDoy 1970 (t / msPerDay)).1))
      (yearDoy 1970 (t / msPerDay)).2).2,
    hy4, hmd.1, hmd.2.1, hmd.2.2.1, hmd.2.2.2.1, ?_⟩
  unfold isoDateOnly
  congr 1
  have hiso : isoChars t =
      (padChars 4 (yearDoy 1970 (t / msPerDay)).1 ++
        '-' :: padChars 2 (monthDay (monthLens (isLeap (yearDoy 1970 (t / msPerDay)).1))
            (yearDoy 1970 (t / msPerDay)).2).1 ++
        '-' :: padChars 2 (monthDay (monthLens (isLeap (yearDoy 1970 (t / msPerDay)).1))
            (yearDoy 1970 (t / msPerDay)).2).2) ++
      'T' :: (padChars 2 (t % msPerDay / 3600000) ++
        ':' :: padChars 2 (t % msPerDay / 60000 % 60) ++
        ':' :: padChars 2 (t % msPerDay / 1000 % 60) ++
        '.' :: padChars 3 (t % msPerDay % 1000) ++ ['Z']) := by
    have h0 : isoChars t =
        padChars 4 (yearDoy 1970 (t / msPerDay)).1 ++
        '-' :: padChars 2 (monthDay (monthLens (isLeap (yearDoy 1970 (t / msPerDay)).1))
            (yearDoy 1970 (t / msPerDay)).2).1 ++
        '-' :: padChars 2 (monthDay (monthLens (isLeap (yearDoy 1970 (t / msPerDay)).1))
            (yearDoy 1970 (t / msPerDay)).2).2 ++
        'T' :: padChars 2 (t % msPerDay / 3600000) ++
        ':' :: padChars 2 (t % msPerDay / 60000 % 60) ++
        ':' :: padChars 2 (t % msPerDay / 1000 % 60) ++
        '.' :: padChars 3 (t % msPerDay % 1000) ++ ['Z'] := rfl
    rw [h0]
    simp only [List.append_assoc, List.cons_append]
  rw [hiso]
  apply takeWhile_append_T
  intro c hc
  simp only [List.append_assoc, List.cons_append, List.mem_append, List.mem_cons] at hc
  rcases hc with hc | hc
  · exact isDigitChar_ne_T (padChars_digits 4 _ hy' c hc)
  · rcases hc with hc | hc
    · subst hc; decide
    · rcases hc with hc | hc
      · exact isDigitChar_ne_T (padChars_digits 2 _ hmo' c hc)
      · rcases hc with hc | hc
        · subst hc; decide
        · exact isDigitChar_ne_T (padChars_digits 2 _ hdd' c hc)

theorem serializeParam_length_pos (p : String × String) :
    0 < (serializeParam p).length := by
  unfold serializeParam
  rw [String.length_append, String.length_append]
  have : ("=" : String).length = 1 := rfl
  omega

theorem joinParams_length_pos (x : String) (xs : List String) (hx : 0 < x.length) :
    0 < (joinParams (x :: xs)).length := by
  cases xs with
  | nil => simpa [joinParams]
  | cons y ys =>
    show 0 < (x ++ "&" ++ joinParams (y :: ys)).length
    rw [String.length_append, String.length_append]
    omega

theorem buildQueryString_empty_iff (f : FilterState) :
    buildQueryString (some f) = "" ↔ buildParams f = [] := by
  simp only [buildQueryString]
  cases hp : buildParams f with
  | nil => simp [joinParams]
  | cons p ps =>
    have hlen := joinParams_length_pos (serializeParam p) (ps.map serializeParam)
      (serializeParam_length_pos p)
    have hne : joinParams (serializeParam p :: ps.map serializeParam) ≠ "" := by
      intro h
      rw [h] at hlen
      simp at hlen
    simp only [List.map_cons]
    rw [if_neg hne]
    constructor
    · intro h
      have hl : ("?" ++ joinParams (serializeParam p :: ps.map serializeParam)).length = 0 := by
        rw [h]; rfl
      rw [String.length_append] at hl
      have h1 : ("?" : String).length = 1 := rfl
      omega
    · intro h
      exact absurd h (List.cons_ne_nil p ps)

theorem buildParams_empty_iff (f : FilterState) :
    buildParams f = [] ↔ (f.region = Region.ALL ∧ f.condition = [] ∧
      f.startDate = none ∧ f.endDate = none) := by
  obtain ⟨r, conds, sd, ed⟩ := f
  unfold buildParams
  cases r <;> cases sd <;> cases ed <;> cases conds <;> simp

theorem buildQueryString_head (f : FilterState) (h : buildParams f ≠ []) :
    (buildQueryString (some f)).data.head? = some '?' := by
  simp only [buildQueryString]
  cases hp : buildParams f with
  | nil => exact absurd hp h
  | cons p ps =>
    have hlen := joinParams_length_pos (serializeParam p) (ps.map serializeParam)
      (serializeParam_length_pos p)
    have hne : joinParams (serializeParam p :: ps.map serializeParam) ≠ "" := by
      intro hq
      rw [hq] at hlen
      simp at hlen
    simp only [List.map_cons]
    rw [if_neg hne]
    rw [String.data_append]
    rfl

theorem mem_buildParams_iff (f : FilterState) (k v : String) :
    (k, v) ∈ buildParams f ↔
      (k = "region" ∧ f.region ≠ Region.ALL ∧ v = regionParam f.region) ∨
      (k = "conditions" ∧ v ∈ f.condition) ∨
      (k = "start_date" ∧ ∃ t, f.startDate = some t ∧ v = isoDateOnly t) ∨
      (k = "end_date" ∧ ∃ t, f.endDate = some t ∧ v = isoDateOnly t) := by
  obtain ⟨r, conds, sd, ed⟩ := f
  unfold buildParams
  constructor
  · intro h
    simp only [List.mem_append] at h
    rcases h with ((hm | hm) | hm) | hm
    · by_cases hr : r ≠ Region.ALL
      · rw [if_pos hr] at hm
        simp only [List.mem_singleton, Prod.ext_iff] at hm
        exact Or.inl ⟨hm.1, hr, hm.2⟩
      · rw [if_neg hr] at hm
        simp at hm
    · obtain ⟨c, hc, he⟩ := List.mem_map.mp hm
      have hk : k = "conditions" := (congrArg Prod.fst he).symm
      have hv : v = c := (congrArg Prod.snd he).symm
      exact Or.inr (Or.inl ⟨hk, hv ▸ hc⟩)
    · cases hsd : sd with
      | none => rw [hsd] at hm; simp at hm
      | some t =>
        rw [hsd] at hm
        simp only [List.mem_singleton, Prod.ext_iff] at hm
        exact Or.inr (Or.inr (Or.inl ⟨hm.1, t, rfl, hm.2⟩))
    · cases hed : ed with
      | none => rw [hed] at hm; simp at hm
      | some t =>
        rw [hed] at hm
        simp only [List.mem_singleton, Prod.ext_iff] at hm
        exact Or.inr (Or.inr (Or.inr ⟨hm.1, t, rfl, hm.2⟩))
  · intro h
    simp only [List.mem_append]
    rcases h with ⟨hk, hr, hv⟩ | ⟨hk, hv⟩ | ⟨hk, t, ht, hv⟩ | ⟨hk, t, ht, hv⟩
    · subst hk hv
      exact Or.inl (Or.inl (Or.inl (by rw [if_pos hr]; simp)))
    · subst hk
      exact Or.inl (Or.inl (Or.inr (List.mem_map.mpr ⟨v, hv, rfl⟩)))
    · subst hk hv
      have ht2 : sd = some t := ht
      rw [ht2]
      exact Or.inl (Or.inr (by simp))
    · subst hk hv
      have ht2 : ed = some t := ht
      rw [ht2]
      exact Or.inr (by simp)

/-- C6: query-string construction — a `region` parameter appears iff the
region is not `ALL` (with the region's literal as value); the `conditions`
parameters are exactly the selected conditions in order (so present iff the
list is non-empty); `start_date`/`end_date` appear iff the corresponding date
is non-null, valued as the date's `YYYY-MM-DD` rendering; the result is empty
for absent filters or when no parameter applies, and otherwise starts with
`?`. -/
theorem buildQueryString_spec (f : FilterState)
    (hs : ∀ t ∈ f.startDate, t < isoMax) (he : ∀ t ∈ f.endDate, t < isoMax) :
    buildQueryString none = "" ∧
    (f.region ≠ Region.ALL → ("region", regionParam f.region) ∈ buildParams f) ∧
    (f.region = Region.ALL → ∀ v, ("region", v) ∉ buildParams f) ∧
    ((buildParams f).filter (fun p => p.1 = "conditions") =
      f.condition.map (fun c => ("conditions", c))) ∧
    (∀ t, f.startDate = some t → ("start_date", isoDateOnly t) ∈ buildParams f ∧
      ∃ y m d, y < 10000 ∧ 1 ≤ m ∧ m ≤ 12 ∧ 1 ≤ d ∧ d ≤ 31 ∧
        isoDateOnly t =
          String.mk (padChars 4 y ++ '-' :: padChars 2 m ++ '-' :: padChars 2 d)) ∧
    (f.startDate = none → ∀ v, ("start_date", v) ∉ buildParams f) ∧
    (∀ t, f.endDate = some t → ("end_date", isoDateOnly t) ∈ buildParams f ∧
      ∃ y m d, y < 10000 ∧ 1 ≤ m ∧ m ≤ 12 ∧ 1 ≤ d ∧ d ≤ 31 ∧
        isoDateOnly t =
          String.mk (padChars 4 y ++ '-' :: padChars 2 m ++ '-' :: padChars 2 d)) ∧
    (f.endDate = none → ∀ v, ("end_date", v) ∉ buildParams f) ∧
    (buildQueryString (some f) = "" ↔
      (f.region = Region.ALL ∧ f.condition = [] ∧ f.startDate = none ∧
        f.endDate = none)) ∧
    (buildParams f ≠ [] → (buildQueryString (some f)).data.head? = some '?') := by
  refine ⟨rfl, ?_, ?_, ?_, ?_, ?_, ?_, ?_, ?_, ?_⟩
  · intro hr
    exact (mem_buildParams_iff f _ _).mpr (Or.inl ⟨rfl, hr, rfl⟩)
  · intro hr v hv
    rcases (mem_buildParams_iff f _ _).mp hv with ⟨_, hne, _⟩ | ⟨hk, _⟩ |
      ⟨hk, _⟩ | ⟨hk, _⟩
    · exact hne hr
    · exact absurd hk (by decide)
    · exact absurd hk (by decide)
    · exact absurd hk (by decide)
  · have hfil : ∀ (conds : List String),
        (conds.map (fun c => ("conditions", c))).filter (fun p => p.1 = "conditions") =
          conds.map (fun c => ("conditions", c)) := by
      intro conds
      induction conds with
      | nil => rfl
      | cons c cs ih => simp [List.filter_cons, ih]
    obtain ⟨r, conds, sd, ed⟩ := f
    unfold buildParams
    cases r <;> cases sd <;> cases ed <;>
      simp [List.filter_append, hfil]
  · intro t ht
    refine ⟨(mem_buildParams_iff f _ _).mpr
      (Or.inr (Or.inr (Or.inl ⟨rfl, t, ht, rfl⟩))), ?_⟩
    exact isoDateOnly_shape t (hs t (by rw [Option.mem_def, ht]))
  · intro h v hv
    rcases (mem_buildParams_iff f _ _).mp hv with ⟨hk, _⟩ | ⟨hk, _⟩ |
      ⟨_, t, ht, _⟩ | ⟨hk, _⟩
    · exact absurd hk (by decide)
    · exact absurd hk (by decide)
    · rw [h] at ht; exact Option.noConfusion ht
    · exact absurd hk (by decide)
  · intro t ht
    refine ⟨(mem_buildParams_iff f _ _).mpr
      (Or.inr (Or.inr (Or.inr ⟨rfl, t, ht, rfl⟩))), ?_⟩
    exact isoDateOnly_shape t (he t (by rw [Option.mem_def, ht]))
  · intro h v hv
    rcases (mem_buildParams_iff f _ _).mp hv with ⟨hk, _⟩ | ⟨hk, _⟩ |
      ⟨hk, _⟩ | ⟨_, t, ht, _⟩
    · exact absurd hk (by decide)
    · exact absurd hk (by decide)
    · exact absurd hk (by decide)
    · rw [h] at ht; exact Option.noConfusion ht
  · rw [buildQueryString_empty_iff, buildParams_empty_iff]
  · exact buildQueryString_head f

/-- A concrete filter state exercising every parameter kind. -/
def sampleFilters : FilterState :=
  { region := Region.US, condition := ["flu"],
    startDate := some 1700000000000, endDate := none }

/-- Witness for C6 at a concrete filter state. -/
theorem buildQueryString_spec_witness :
    buildQueryString none = "" ∧
    ("region", regionParam Region.US) ∈ buildParams sampleFilters ∧
    ((buildParams sampleFilters).filter (fun p => p.1 = "conditions") =
      [("conditions", "flu")]) ∧
    ("start_date", isoDateOnly 1700000000000) ∈ buildParams sampleFilters ∧
    (buildQueryString (some sampleFilters)).data.head? = some '?' := by
  have hs : ∀ t ∈ sampleFilters.startDate, t < isoMax := by
    intro t ht
    have heq : t = 1700000000000 := by simpa [sampleFilters] using ht.symm
    subst heq
    exact lt_of_lt_of_le (by norm_num) isoMax_lb
  have he : ∀ t ∈ sampleFilters.endDate, t < isoMax := by
    intro t ht
    simp [sampleFilters] at ht
  have h := buildQueryString_spec sampleFilters hs he
  have hmem := h.2.1 (by intro hh; exact Region.noConfusion hh)
  refine ⟨h.1, hmem, h.2.2.2.1, (h.2.2.2.2.1 1700000000000 rfl).1, ?_⟩
  exact h.2.2.2.2.2.2.2.2.2 (List.ne_nil_of_mem hmem)

/-! ## Charts page error handling (`Charts.tsx`)

`fetchAggregations` runs nine fetches, each in its own sequential try/catch;
a failure records `errors[groupKey] = error.message`.  The grid then renders
each chart cell from `errors[chart.dataKey]`. -/

/-- The nine aggregation fetches, in execution order. -/
inductive AggEndpoint
  | totals
  | conditions
  | sponsors
  | enrollment
  | statuses
  | phases
  | years
  | countries
  | durations
deriving DecidableEq

/-- The key under which a failing fetch records its message in `errors`. -/
def errorKey : AggEndpoint → String
  | AggEndpoint.totals => "totals"
  | AggEndpoint.conditions => "conditions"
  | AggEndpoint.sponsors => "sponsors"
  | AggEndpoint.enrollment => "enrollment"
  | AggEndpoint.statuses => "statuses"
  | AggEndpoint.phases => "phases"
  | AggEndpoint.years => "years"
  | AggEndpoint.countries => "countries"
  | AggEndpoint.durations => "durations"

def aggOrder : List AggEndpoint :=
  [AggEndpoint.totals, AggEndpoint.conditions, AggEndpoint.sponsors,
   AggEndpoint.enrollment, AggEndpoint.statuses, AggEndpoint.phases,
   AggEndpoint.years, AggEndpoint.countries, AggEndpoint.durations]

/-- The `dataKey` of each of the 14 chart cells, in grid order. -/
def chartDataKeys : List String :=
  ["totals", "conditions_us", "conditions_eu", "sponsors_us", "sponsors_eu",
   "top_sponsors", "enrollment_us", "enrollment_eu", "statuses_us",
   "statuses_eu", "phases", "years", "countries", "durations"]

/-- One network outcome per endpoint: `some msg` when the fetch rejects or
returns non-ok (with the caught error's message), `none` on success. -/
def FetchWorld : Type := AggEndpoint → Option String

/-- The `errors` map after `fetchAggregations` has run: each endpoint's
try/catch is independent, so every failing endpoint contributes its entry no
matter what the other fetches do. -/
def fetchAggregations (w : FetchWorld) : List (String × String) :=
  (aggOrder.map (fun e =>
    match w e with
    | some msg => [(errorKey e, msg)]
    | none => [])).flatten

/-- What a chart cell displays. -/
inductive CellView
  | errorText (text : String)
  | loadingView
  | chartView
deriving DecidableEq

/-- One grid cell: `error ? "Error: " + error : chartData.length === 0 ?
"Loading..." : <chart>` — a missing entry is `undefined` (falsy), and the
empty string is also falsy. -/
def renderCell (errors : List (String × String)) (dataKey : String)
    (dataLen : Nat) : CellView :=
  match lookupKey errors dataKey with
  | some msg =>
    if msg = "" then
      if dataLen = 0 then CellView.loadingView else CellView.chartView
    else CellView.errorText ("Error: " ++ msg)
  | none => if dataLen = 0 then CellView.loadingView else CellView.chartView

theorem errorKey_inj (a b : AggEndpoint) (h : errorKey a = errorKey b) : a = b := by
  cases a <;> cases b <;> first | rfl | exact absurd h (by decide)

theorem lookup_fetch_aux (w : FetchWorld) (k : String) :
    ∀ es : List AggEndpoint, k ∉ es.map errorKey →
    lookupKey ((es.map (fun e =>
      match w e with
      | some msg => [(errorKey e, msg)]
      | none => [])).flatten) k = none := by
  intro es
  induction es with
  | nil => intro _; rfl
  | cons a rest ih =>
    intro hk
    simp only [List.map_cons, List.mem_cons, not_or] at hk
    simp only [List.map_cons, List.flatten_cons]
    cases hw : w a with
    | none => simpa using ih hk.2
    | some msg =>
      simp only [List.cons_append, List.nil_append, lookupKey, if_neg (Ne.symm hk.1)]
      exact ih hk.2

theorem lookup_fetch_entry (w : FetchWorld) (e : AggEndpoint) :
    ∀ es : List AggEndpoint, e ∈ es → (es.map errorKey).Nodup →
    lookupKey ((es.map (fun e =>
      match w e with
      | some msg => [(errorKey e, msg)]
      | none => [])).flatten) (errorKey e) = w e := by
  intro es
  induction es with
  | nil => intro he; cases he
  | cons a rest ih =>
    intro he hnd
    simp only [List.map_cons, List.nodup_cons] at hnd
    simp only [List.map_cons, List.flatten_cons]
    by_cases hae : a = e
    · subst hae
      cases hw : w a with
      | some msg => simp [lookupKey]
      | none =>
        simp only [List.nil_append]
        exact lookup_fetch_aux w (errorKey a) rest hnd.1
    · have hkey : errorKey a ≠ errorKey e := fun hh => hae (errorKey_inj a e hh)
      have hrest : e ∈ rest := by
        rcases List.mem_cons.mp he with hh | hh
        · exact absurd hh.symm hae
        · exact hh
      cases hw : w a with
      | none => simpa using ih hrest hnd.2
      | some msg =>
        simp only [List.cons_append, List.nil_append, lookupKey, if_neg hkey]
        exact ih hrest hnd.2

theorem lookup_fetchAggregations (w : FetchWorld) (e : AggEndpoint) :
    lookupKey (fetchAggregations w) (errorKey e) = w e := by
  apply lookup_fetch_entry
  · cases e <;> simp [aggOrder]
  · decide

theorem lookup_mem {α : Type} (l : List (String × α)) (k : String) (v : α)
    (h : lookupKey l k = some v) : (k, v) ∈ l := by
  induction l with
  | nil => simp [lookupKey] at h
  | cons hd tl ih =>
    obtain ⟨k0, v0⟩ := hd
    by_cases h0 : k0 = k
    · subst h0
      have hv : v0 = v := by simpa [lookupKey] using h
      subst hv
      simp
    · simp only [lookupKey, if_neg h0] at h
      exact List.mem_cons_of_mem _ (ih h)

/-- The network world in which only the by_condition endpoint fails. -/
def condFailWorld : FetchWorld := fun e =>
  match e with
  | AggEndpoint.conditions => some "Failed to fetch conditions"
  | _ => none

/-- C7 counterexample: the errors map is keyed by the fetch group name
(`conditions`), but the conditions charts look up their own dataKey
(`conditions_us`), which is never written — so when the by_condition fetch
fails the chart cell renders the loading placeholder, not the inline error
text the claim requires. -/
theorem charts_error_key_mismatch_cex :
    fetchAggregations condFailWorld =
      [("conditions", "Failed to fetch conditions")] ∧
    "conditions_us" ∈ chartDataKeys ∧
    renderCell (fetchAggregations condFailWorld) "conditions_us" 0 =
      CellView.loadingView ∧
    CellView.loadingView ≠
      CellView.errorText ("Error: " ++ "Failed to fetch conditions") :=
  ⟨by decide, by decide, by decide, by decide⟩

/-- C7 (amended): every failing endpoint still records its message under its
group key (the nine try/catch blocks are independent, so the remaining
fetches run regardless); a chart cell whose dataKey equals a failing
endpoint's group key — i.e. only the five charts keyed `totals`, `phases`,
`years`, `countries`, `durations` — renders `Error: ` plus the message (for a
non-empty message), while a cell whose dataKey is not a group key never
shows an inline error and falls back to the loading/chart branch. -/
theorem fetchAggregations_errors_amended (w : FetchWorld) :
    (∀ e msg, w e = some msg → (errorKey e, msg) ∈ fetchAggregations w) ∧
    (∀ e msg n, w e = some msg → msg ≠ "" →
      renderCell (fetchAggregations w) (errorKey e) n =
        CellView.errorText ("Error: " ++ msg)) ∧
    (∀ e n, w e = none →
      renderCell (fetchAggregations w) (errorKey e) n =
        (if n = 0 then CellView.loadingView else CellView.chartView)) ∧
    (∀ dataKey n, dataKey ∉ aggOrder.map errorKey →
      renderCell (fetchAggregations w) dataKey n =
        (if n = 0 then CellView.loadingView else CellView.chartView)) := by
  refine ⟨?_, ?_, ?_, ?_⟩
  · intro e msg hmsg
    apply lookup_mem
    rw [lookup_fetchAggregations, hmsg]
  · intro e msg n hmsg hne
    unfold renderCell
    rw [lookup_fetchAggregations, hmsg]
    simp [hne]
  · intro e n hmsg
    unfold renderCell
    rw [lookup_fetchAggregations, hmsg]
  · intro dataKey n hk
    unfold renderCell
    rw [show lookupKey (fetchAggregations w) dataKey = none from
      lookup_fetch_aux w dataKey aggOrder hk]

/-- Witness for the amended C7 in the world where only the by_condition
fetch fails. -/
theorem fetchAggregations_errors_amended_witness :
    ("conditions", "Failed to fetch conditions") ∈
      fetchAggregations condFailWorld ∧
    renderCell (fetchAggregations condFailWorld) "conditions" 0 =
      CellView.errorText ("Error: " ++ "Failed to fetch conditions") ∧
    renderCell (fetchAggregations condFailWorld) "totals" 0 =
      (if (0 : Nat) = 0 then CellView.loadingView else CellView.chartView) ∧
    renderCell (fetchAggregations condFailWorld) "conditions_us" 7 =
      (if (7 : Nat) = 0 then CellView.loadingView else CellView.chartView) := by
  have h := fetchAggregations_errors_amended condFailWorld
  refine ⟨h.1 AggEndpoint.conditions "Failed to fetch conditions" rfl,
    h.2.1 AggEndpoint.conditions "Failed to fetch conditions" 0 rfl (by decide),
    h.2.2.1 AggEndpoint.totals 0 rfl,
    h.2.2.2 "conditions_us" 7 (by decide)⟩

/-! ## BaseChartWidget display precedence (`widgets/BaseChartWidget.tsx`) -/

/-- The three bodies the widget can render. -/
inductive WidgetBody
  | errorBody (text : String)
  | loadingBody
  | childrenBody
deriving DecidableEq

/-- `error ? "Error: " + error : isLoading ? "Loading..." : children`, with
JS truthiness: `null` and the empty string are both falsy. -/
def renderBaseChartWidget (error : Option String) (isLoading : Bool) : WidgetBody :=
  match error with
  | some msg =>
    if msg = "" then
      if isLoading then WidgetBody.loadingBody else WidgetBody.childrenBody
    else WidgetBody.errorBody ("Error: " ++ msg)
  | none => if isLoading then WidgetBody.loadingBody else WidgetBody.childrenBody

/-- C10 counterexample: `error = ""` is non-null but falsy, so with
`isLoading = true` the widget renders the loading indicator, not the error
text the claim requires for every non-null error. -/
theorem baseChartWidget_empty_error_cex :
    (some "" : Option String) ≠ none ∧
    renderBaseChartWidget (some "") true = WidgetBody.loadingBody ∧
    WidgetBody.loadingBody ≠ WidgetBody.errorBody ("Error: " ++ "") :=
  ⟨by decide, by decide, by decide⟩

/-- C10 (amended): the widget renders exactly one of three bodies — the error
text `Error: ` plus the message when `error` is a non-null, non-empty string
(even while loading); the loading indicator when `error` is null or empty and
`isLoading` holds; and the children otherwise. -/
theorem baseChartWidget_precedence_amended :
    ∀ (error : Option String) (isLoading : Bool),
      (∃ msg, error = some msg ∧ msg ≠ "" ∧
        renderBaseChartWidget error isLoading =
          WidgetBody.errorBody ("Error: " ++ msg)) ∨
      ((error = none ∨ error = some "") ∧ isLoading = true ∧
        renderBaseChartWidget error isLoading = WidgetBody.loadingBody) ∨
      ((error = none ∨ error = some "") ∧ isLoading = false ∧
        renderBaseChartWidget error isLoading = WidgetBody.childrenBody) := by
  intro error isLoading
  cases error with
  | none => cases isLoading <;> simp [renderBaseChartWidget]
  | some msg =>
    by_cases h : msg = ""
    · subst h
      cases isLoading <;> simp [renderBaseChartWidget]
    · exact Or.inl ⟨msg, rfl, h, by simp [renderBaseChartWidget, h]⟩
